import Mathlib

/-!
Verification of the cctz civil-time core (`civil_time_detail.h`).

The shallow embedding below translates the C++ header into Lean.  C++ `int`
values are modelled as unbounded `Int`; C++ `/` and `%` (truncating division,
remainder with the sign of the dividend) are modelled by `Int.tdiv` and
`Int.tmod`.  C++ `while` loops are modelled by fueled structural recursion;
every loop in the source strictly decreases the positive day counter `d`, so
`d.toNat` units of fuel always suffice (this is proved in the loop lemmas).
-/

namespace CctzDetail

/-- Normalized civil-time fields: Y-M-D HH:MM:SS (struct `fields`). -/
structure Fields where
  y : Int
  m : Int
  d : Int
  hh : Int
  mm : Int
  ss : Int
deriving DecidableEq, Repr

/-- The six alignment tags (`second_tag` .. `year_tag`). -/
inductive Tag where
  | second
  | minute
  | hour
  | day
  | month
  | year
deriving DecidableEq, Repr

/-- `impl::is_leap_year`. C++ `%` is `Int.tmod`. -/
def is_leap_year (y : Int) : Bool :=
  y.tmod 4 == 0 && (!(y.tmod 100 == 0) || y.tmod 400 == 0)

/-- `impl::year_index`: `(((y + (m > 2)) % 400) + 400) % 400`. -/
def year_index (y m : Int) : Int :=
  (((y + (if 2 < m then 1 else 0)).tmod 400) + 400).tmod 400

/-- The table `k_days_per_century` (per-century day counts as 36524-deficit). -/
def k_days_per_century : List Int := [
  1, 0, 0, 0, 0, 0, 0, 0, 0, 0, 0, 0, 0, 0, 0, 0, 0, 0, 0, 0, 0, 0, 0, 0, 0, 0, 0, 0, 0, 0, 0, 0, 0, 0, 0, 0, 0, 0, 0, 0,
  0, 0, 0, 0, 0, 0, 0, 0, 0, 0, 0, 0, 0, 0, 0, 0, 0, 0, 0, 0, 0, 0, 0, 0, 0, 0, 0, 0, 0, 0, 0, 0, 0, 0, 0, 0, 0, 0, 0, 0,
  0, 0, 0, 0, 0, 0, 0, 0, 0, 0, 0, 0, 0, 0, 0, 0, 0, 0, 0, 0, 0, 0, 0, 0, 0, 0, 0, 0, 0, 0, 0, 0, 0, 0, 0, 0, 0, 0, 0, 0,
  0, 0, 0, 0, 0, 0, 0, 0, 0, 0, 0, 0, 0, 0, 0, 0, 0, 0, 0, 0, 0, 0, 0, 0, 0, 0, 0, 0, 0, 0, 0, 0, 0, 0, 0, 0, 0, 0, 0, 0,
  0, 0, 0, 0, 0, 0, 0, 0, 0, 0, 0, 0, 0, 0, 0, 0, 0, 0, 0, 0, 0, 0, 0, 0, 0, 0, 0, 0, 0, 0, 0, 0, 0, 0, 0, 0, 0, 0, 0, 0,
  0, 0, 0, 0, 0, 0, 0, 0, 0, 0, 0, 0, 0, 0, 0, 0, 0, 0, 0, 0, 0, 0, 0, 0, 0, 0, 0, 0, 0, 0, 0, 0, 0, 0, 0, 0, 0, 0, 0, 0,
  0, 0, 0, 0, 0, 0, 0, 0, 0, 0, 0, 0, 0, 0, 0, 0, 0, 0, 0, 0, 0, 0, 0, 0, 0, 0, 0, 0, 0, 0, 0, 0, 0, 0, 0, 0, 0, 0, 0, 0,
  0, 0, 0, 0, 0, 0, 0, 0, 0, 0, 0, 0, 0, 0, 0, 0, 0, 0, 0, 0, 0, 1, 1, 1, 1, 1, 1, 1, 1, 1, 1, 1, 1, 1, 1, 1, 1, 1, 1, 1,
  1, 1, 1, 1, 1, 1, 1, 1, 1, 1, 1, 1, 1, 1, 1, 1, 1, 1, 1, 1, 1, 1, 1, 1, 1, 1, 1, 1, 1, 1, 1, 1, 1, 1, 1, 1, 1, 1, 1, 1,
  1, 1, 1, 1, 1, 1, 1, 1, 1, 1, 1, 1, 1, 1, 1, 1, 1, 1, 1, 1, 1, 1, 1, 1, 1, 1, 1, 1, 1, 1, 1, 1, 1, 1, 1, 1, 1, 1, 1, 1]

/-- The table `k_days_per_4years` (per-4-year day counts as 1460-deficit). -/
def k_days_per_4years : List Int := [
  1, 1, 1, 1, 1, 1, 1, 1, 1, 1, 1, 1, 1, 1, 1, 1, 1, 1, 1, 1, 1, 1, 1, 1, 1, 1, 1, 1, 1, 1, 1, 1, 1, 1, 1, 1, 1, 1, 1, 1,
  1, 1, 1, 1, 1, 1, 1, 1, 1, 1, 1, 1, 1, 1, 1, 1, 1, 1, 1, 1, 1, 1, 1, 1, 1, 1, 1, 1, 1, 1, 1, 1, 1, 1, 1, 1, 1, 1, 1, 1,
  1, 1, 1, 1, 1, 1, 1, 1, 1, 1, 1, 1, 1, 1, 1, 1, 1, 0, 0, 0, 0, 1, 1, 1, 1, 1, 1, 1, 1, 1, 1, 1, 1, 1, 1, 1, 1, 1, 1, 1,
  1, 1, 1, 1, 1, 1, 1, 1, 1, 1, 1, 1, 1, 1, 1, 1, 1, 1, 1, 1, 1, 1, 1, 1, 1, 1, 1, 1, 1, 1, 1, 1, 1, 1, 1, 1, 1, 1, 1, 1,
  1, 1, 1, 1, 1, 1, 1, 1, 1, 1, 1, 1, 1, 1, 1, 1, 1, 1, 1, 1, 1, 1, 1, 1, 1, 1, 1, 1, 1, 1, 1, 1, 1, 1, 1, 1, 1, 0, 0, 0,
  0, 1, 1, 1, 1, 1, 1, 1, 1, 1, 1, 1, 1, 1, 1, 1, 1, 1, 1, 1, 1, 1, 1, 1, 1, 1, 1, 1, 1, 1, 1, 1, 1, 1, 1, 1, 1, 1, 1, 1,
  1, 1, 1, 1, 1, 1, 1, 1, 1, 1, 1, 1, 1, 1, 1, 1, 1, 1, 1, 1, 1, 1, 1, 1, 1, 1, 1, 1, 1, 1, 1, 1, 1, 1, 1, 1, 1, 1, 1, 1,
  1, 1, 1, 1, 1, 1, 1, 1, 1, 1, 1, 1, 1, 1, 1, 1, 1, 0, 0, 0, 0, 1, 1, 1, 1, 1, 1, 1, 1, 1, 1, 1, 1, 1, 1, 1, 1, 1, 1, 1,
  1, 1, 1, 1, 1, 1, 1, 1, 1, 1, 1, 1, 1, 1, 1, 1, 1, 1, 1, 1, 1, 1, 1, 1, 1, 1, 1, 1, 1, 1, 1, 1, 1, 1, 1, 1, 1, 1, 1, 1,
  1, 1, 1, 1, 1, 1, 1, 1, 1, 1, 1, 1, 1, 1, 1, 1, 1, 1, 1, 1, 1, 1, 1, 1, 1, 1, 1, 1, 1, 1, 1, 1, 1, 1, 1, 1, 1, 1, 1, 1]

/-- `impl::days_per_century`. -/
def days_per_century (y m : Int) : Int :=
  36524 + k_days_per_century.getD (year_index y m).toNat 0

/-- `impl::days_per_4years`. -/
def days_per_4years (y m : Int) : Int :=
  1460 + k_days_per_4years.getD (year_index y m).toNat 0

/-- `impl::days_per_year`. -/
def days_per_year (y m : Int) : Int :=
  if is_leap_year (y + (if 2 < m then 1 else 0)) then 366 else 365

/-- The month-length table `k_dpm` (non-leap years). -/
def k_dpm : List Int := [31, 28, 31, 30, 31, 30, 31, 31, 30, 31, 30, 31]

/-- `impl::days_per_month`.  An index outside `[0, 11]` is an out-of-bounds
read (undefined behavior) in the C++ source; the embedding totalizes it with
the in-range value 31. -/
def days_per_month (y m : Int) : Int :=
  k_dpm.getD (m - 1).toNat 31 + (if m = 2 ∧ is_leap_year y then 1 else 0)

/-- The century loop of `impl::n_day`:
`while (d > n) { d -= n; n = days_per_century(y += 100, m); }`.
Fuel `d.toNat` is always sufficient because each iteration decreases `d`
by at least 36524. -/
def days_century_loop : Nat → Int → Int → Int → Int × Int
  | 0, y, _, d => (y, d)
  | fuel + 1, y, m, d =>
    if days_per_century y m < d then
      days_century_loop fuel (y + 100) m (d - days_per_century y m)
    else (y, d)

/-- The 4-year loop of `impl::n_day`. -/
def days_4years_loop : Nat → Int → Int → Int → Int × Int
  | 0, y, _, d => (y, d)
  | fuel + 1, y, m, d =>
    if days_per_4years y m < d then
      days_4years_loop fuel (y + 4) m (d - days_per_4years y m)
    else (y, d)

/-- The single-year loop of `impl::n_day`. -/
def days_year_loop : Nat → Int → Int → Int → Int × Int
  | 0, y, _, d => (y, d)
  | fuel + 1, y, m, d =>
    if days_per_year y m < d then
      days_year_loop fuel (y + 1) m (d - days_per_year y m)
    else (y, d)

/-- The month loop of `impl::n_day`:
`while (d > n) { d -= n; n = (m == 12) ? days_per_month(++y, m = 1)
                                       : days_per_month(y, ++m); }`. -/
def days_month_loop : Nat → Int → Int → Int → Int × Int × Int
  | 0, y, m, d => (y, m, d)
  | fuel + 1, y, m, d =>
    if days_per_month y m < d then
      if m = 12 then days_month_loop fuel (y + 1) 1 (d - days_per_month y m)
      else days_month_loop fuel y (m + 1) (d - days_per_month y m)
    else (y, m, d)

/-- The four while loops of `impl::n_day` (century, 4-year, year, month),
run in sequence on the reduced day counter. -/
def n_day_core (y m dd : Int) : Int × Int × Int :=
  let p1 := days_century_loop dd.toNat y m dd
  let p2 := days_4years_loop p1.2.toNat p1.1 m p1.2
  let p3 := days_year_loop p2.2.toNat p2.1 m p2.2
  days_month_loop p3.2.toNat p3.1 m p3.2

/-- `impl::n_day`: the initial mod-146097 reduction of the carry `c` and the
day `d` into whole 400-year eras, followed by the four loops. -/
def n_day (y m d c hh mm ss : Int) : Fields :=
  let y1 := y + c.tdiv 146097 * 400
  let c1 := c.tmod 146097
  let y2 := if c1 < 0 then y1 - 400 else y1
  let c2 := if c1 < 0 then c1 + 146097 else c1
  let y3 := y2 + d.tdiv 146097 * 400
  let d1 := d.tmod 146097 + c2
  let y4 := if d1 ≤ 0 then y3 - 400 else y3
  let d2 := if d1 ≤ 0 then d1 + 146097 else d1
  let p4 := n_day_core y4 m d2
  ⟨p4.1, p4.2.1, p4.2.2, hh, mm, ss⟩

/-- `impl::n_mon`. -/
def n_mon (y m d cd hh mm ss : Int) : Fields :=
  let y1 := y + m.tdiv 12
  let m1 := m.tmod 12
  let y2 := if m1 ≤ 0 then y1 - 1 else y1
  let m2 := if m1 ≤ 0 then m1 + 12 else m1
  n_day y2 m2 d cd hh mm ss

/-- `impl::n_hour`. -/
def n_hour (y m d c hh mm ss : Int) : Fields :=
  let c1 := c + hh.tdiv 24
  let hh1 := hh.tmod 24
  let c2 := if hh1 < 0 then c1 - 1 else c1
  let hh2 := if hh1 < 0 then hh1 + 24 else hh1
  n_mon y m d c2 hh2 mm ss

/-- `impl::n_min`. -/
def n_min (y m d hh c mm ss : Int) : Fields :=
  let c1 := c + mm.tdiv 60
  let mm1 := mm.tmod 60
  let c2 := if mm1 < 0 then c1 - 1 else c1
  let mm2 := if mm1 < 0 then mm1 + 60 else mm1
  n_hour y m d (hh.tdiv 24 + c2.tdiv 24) (hh.tmod 24 + c2.tmod 24) mm2 ss

/-- `impl::n_sec`. -/
def n_sec (y m d hh mm ss : Int) : Fields :=
  let c := ss.tdiv 60
  let ss1 := ss.tmod 60
  let c2 := if ss1 < 0 then c - 1 else c
  let ss2 := if ss1 < 0 then ss1 + 60 else ss1
  n_min y m d hh (mm.tdiv 60 + c2.tdiv 60) (mm.tmod 60 + c2.tmod 60) ss2

/-- `impl::doy`. -/
def doy (m d : Int) : Int :=
  (153 * (m + (if 2 < m then -3 else 9)) + 2).tdiv 5 + d - 1

/-- `impl::doe`. -/
def doe (yoe m d : Int) : Int :=
  yoe * 365 + yoe.tdiv 4 - yoe.tdiv 100 + doy m d

/-- `impl::era_eymd_ord`. -/
def era_eymd_ord (era eyear m d : Int) : Int :=
  era * 146097 + doe (eyear - era * 400) m d - 719468

/-- `impl::eymd_ord`. -/
def eymd_ord (eyear m d : Int) : Int :=
  era_eymd_ord ((if 0 ≤ eyear then eyear else eyear - 399).tdiv 400) eyear m d

/-- `impl::ymd_ord`. -/
def ymd_ord (y m d : Int) : Int :=
  eymd_ord (if m ≤ 2 then y - 1 else y) m d

/-- The six `align` overloads, dispatched on the tag. -/
def align : Tag → Fields → Fields
  | .second, f => f
  | .minute, f => ⟨f.y, f.m, f.d, f.hh, f.mm, 0⟩
  | .hour, f => ⟨f.y, f.m, f.d, f.hh, 0, 0⟩
  | .day, f => ⟨f.y, f.m, f.d, 0, 0, 0⟩
  | .month, f => ⟨f.y, f.m, 1, 0, 0, 0⟩
  | .year, f => ⟨f.y, 1, 1, 0, 0, 0⟩

/-- The six `step` overloads, dispatched on the tag. -/
def step : Tag → Fields → Int → Fields
  | .second, f, n => n_sec f.y f.m f.d f.hh (f.mm + n.tdiv 60) (f.ss + n.tmod 60)
  | .minute, f, n => n_min f.y f.m f.d (f.hh + n.tdiv 60) 0 (f.mm + n.tmod 60) f.ss
  | .hour, f, n => n_hour f.y f.m (f.d + n.tdiv 24) 0 (f.hh + n.tmod 24) f.mm f.ss
  | .day, f, n => n_day f.y f.m f.d n f.hh f.mm f.ss
  | .month, f, n => n_mon (f.y + n.tdiv 12) (f.m + n.tmod 12) f.d 0 f.hh f.mm f.ss
  | .year, f, n => ⟨f.y + n, f.m, f.d, f.hh, f.mm, f.ss⟩

/-- `difference(year_tag, ...)`. -/
def difference_year (f1 f2 : Fields) : Int := f1.y - f2.y

/-- `difference(month_tag, ...)`. -/
def difference_month (f1 f2 : Fields) : Int :=
  difference_year f1 f2 * 12 + (f1.m - f2.m)

/-- `difference(day_tag, ...)`. -/
def difference_day (f1 f2 : Fields) : Int :=
  ymd_ord f1.y f1.m f1.d - ymd_ord f2.y f2.m f2.d

/-- `difference(hour_tag, ...)`. -/
def difference_hour (f1 f2 : Fields) : Int :=
  difference_day f1 f2 * 24 + (f1.hh - f2.hh)

/-- `difference(minute_tag, ...)`. -/
def difference_minute (f1 f2 : Fields) : Int :=
  difference_hour f1 f2 * 60 + (f1.mm - f2.mm)

/-- `difference(second_tag, ...)`. -/
def difference_second (f1 f2 : Fields) : Int :=
  difference_minute f1 f2 * 60 + (f1.ss - f2.ss)

/-- The `difference` overloads, dispatched on the tag. -/
def difference : Tag → Fields → Fields → Int
  | .year, f1, f2 => difference_year f1 f2
  | .month, f1, f2 => difference_month f1 f2
  | .day, f1, f2 => difference_day f1 f2
  | .hour, f1, f2 => difference_hour f1 f2
  | .minute, f1, f2 => difference_minute f1 f2
  | .second, f1, f2 => difference_second f1 f2

/-- The public `civil_time` constructor:
`civil_time(y, m, d, hh, mm, ss)` normalizes via `impl::n_sec` and then the
designated constructor aligns the fields to the type's tag. -/
def civil_time (t : Tag) (y m d hh mm ss : Int) : Fields :=
  align t (n_sec y m d hh mm ss)

/-- The conversion constructor `civil_time<T>(civil_time<U> ct)`: routes
`ct.f_` through the designated constructor, which aligns to the target tag
(both the implicit widening and the explicit narrowing overloads compute
this same value; the implicit/explicit distinction is a compile-time rule). -/
def civil_time_convert (t : Tag) (f : Fields) : Fields := align t f

/-- The default constructor `civil_time() : civil_time(1970)`. -/
def civil_time_default (t : Tag) : Fields := civil_time t 1970 1 1 0 0 0

/-- `operator+=`: `f_ = step(T{}, f_, n)`. -/
def add_assign (t : Tag) (f : Fields) (n : Int) : Fields := step t f n

/-- The smallest value of the C++ 32-bit `int`, `std::numeric_limits<int>::min()`. -/
def int_min : Int := -2147483648

/-- Reduction of a mathematical integer to the 32-bit two's-complement
representative, used to model the C++ `int` negation `-n` (which wraps to
`INT_MIN` at `n == INT_MIN` under two's-complement semantics; in ISO C++
that negation is undefined behavior). -/
def wrap32 (x : Int) : Int := (x + 2147483648) % 4294967296 - 2147483648

/-- `operator-=`: steps by `-n`, except at `n == INT_MIN`, which is split as
`step(T(), step(T{}, f_, -(n + 1)), 1)` so that `n` is never negated. -/
def sub_assign (t : Tag) (f : Fields) (n : Int) : Fields :=
  if n ≠ int_min then step t f (-n)
  else step t (step t f (-(n + 1))) 1

/-- Binary `operator+(civil_time, int)`: `civil_time(step(T{}, a.f_, n))`
(the designated constructor re-aligns). -/
def add_op (t : Tag) (f : Fields) (n : Int) : Fields :=
  align t (step t f n)

/-- Binary `operator-(civil_time, int)`: `civil_time(step(T{}, a.f_, -n))`,
with the C++ `int` negation modelled by `wrap32`. -/
def sub_op (t : Tag) (f : Fields) (n : Int) : Fields :=
  align t (step t f (wrap32 (-n)))

/-- Relational `operator<`: compares all six stored fields lexicographically,
regardless of the two operands' alignment tags (the C++ operator reads only
the six accessors of each operand). -/
def lt_fields (f1 f2 : Fields) : Bool :=
  decide (f1.y < f2.y) ||
    (f1.y == f2.y &&
      (decide (f1.m < f2.m) ||
        (f1.m == f2.m &&
          (decide (f1.d < f2.d) ||
            (f1.d == f2.d &&
              (decide (f1.hh < f2.hh) ||
                (f1.hh == f2.hh &&
                  (decide (f1.mm < f2.mm) ||
                    (f1.mm == f2.mm &&
                      decide (f1.ss < f2.ss))))))))))

/-- Relational `operator<=`: `!(rhs < lhs)`. -/
def le_fields (f1 f2 : Fields) : Bool := !lt_fields f2 f1

/-- Relational `operator>=`: `!(lhs < rhs)`. -/
def ge_fields (f1 f2 : Fields) : Bool := !lt_fields f1 f2

/-- Relational `operator>`: `rhs < lhs`. -/
def gt_fields (f1 f2 : Fields) : Bool := lt_fields f2 f1

/-- Relational `operator==`: all six stored fields equal. -/
def eq_fields (f1 f2 : Fields) : Bool :=
  f1.y == f2.y && f1.m == f2.m && f1.d == f2.d &&
    f1.hh == f2.hh && f1.mm == f2.mm && f1.ss == f2.ss

/-- Relational `operator!=`: `!(lhs == rhs)`. -/
def ne_fields (f1 f2 : Fields) : Bool := !eq_fields f1 f2

/-- `enum class weekday`. -/
inductive Weekday where
  | monday
  | tuesday
  | wednesday
  | thursday
  | friday
  | saturday
  | sunday
deriving DecidableEq, Repr

/-- The table `k_weekday_by_thu_off`. -/
def k_weekday_by_thu_off : List Weekday :=
  [.thursday, .friday, .saturday, .sunday, .monday, .tuesday, .wednesday]

/-- `get_weekday`: `k_weekday_by_thu_off[((cd - civil_day()) % 7 + 7) % 7]`. -/
def get_weekday (cd : Fields) : Weekday :=
  k_weekday_by_thu_off.getD
    ((((difference .day cd (civil_time_default .day)).tmod 7 + 7).tmod 7).toNat)
    .thursday

/-! ## Canonical-form predicates -/

/-- The six fields of a value form a canonical date: month in `[1, 12]` and
day in `[1, days_per_month]`. -/
abbrev canonicalDate (f : Fields) : Prop :=
  1 ≤ f.m ∧ f.m ≤ 12 ∧ 1 ≤ f.d ∧ f.d ≤ days_per_month f.y f.m

/-- The time-of-day fields are canonical: `0 ≤ hh < 24`, `0 ≤ mm < 60`,
`0 ≤ ss < 60`. -/
abbrev canonicalTime (f : Fields) : Prop :=
  0 ≤ f.hh ∧ f.hh < 24 ∧ 0 ≤ f.mm ∧ f.mm < 60 ∧ 0 ≤ f.ss ∧ f.ss < 60

/-- Full canonical form of a fields tuple. -/
abbrev isCanonical (f : Fields) : Prop := canonicalDate f ∧ canonicalTime f

/-- Every field strictly below the alignment tag is at its minimum
(1 for month/day, 0 for hour/minute/second). -/
abbrev alignedTo : Tag → Fields → Prop
  | .second, _ => True
  | .minute, f => f.ss = 0
  | .hour, f => f.mm = 0 ∧ f.ss = 0
  | .day, f => f.hh = 0 ∧ f.mm = 0 ∧ f.ss = 0
  | .month, f => f.d = 1 ∧ f.hh = 0 ∧ f.mm = 0 ∧ f.ss = 0
  | .year, f => f.m = 1 ∧ f.d = 1 ∧ f.hh = 0 ∧ f.mm = 0 ∧ f.ss = 0

/-- `ymd_ord` applied to the date fields of a tuple. -/
def ymd_ord_f (f : Fields) : Int := ymd_ord f.y f.m f.d

/-- The day-of-year offset of the first of month `m` in the shifted
(March-first) year, as computed by `impl::doy`. -/
def doy_gen (m : Int) : Int := (153 * (m + (if 2 < m then -3 else 9)) + 2).tdiv 5

/-- Closed floored-division form of the number of days before the shifted
year `e`: `365 e + ⌊e/4⌋ - ⌊e/100⌋ + ⌊e/400⌋`. -/
def gdays (e : Int) : Int := 365 * e + e / 4 - e / 100 + e / 400

/-- Total hour count of a fields tuple (days since epoch times 24 plus hour). -/
def hour_count (f : Fields) : Int := ymd_ord_f f * 24 + f.hh

/-- Total minute count of a fields tuple. -/
def minute_count (f : Fields) : Int := hour_count f * 60 + f.mm

/-- Total second count of a fields tuple. -/
def second_count (f : Fields) : Int := minute_count f * 60 + f.ss

/-- The absolute position of an aligned value, in units of its alignment:
seconds for second-alignment, ..., months for month-alignment, years for
year-alignment. -/
def tag_count : Tag → Fields → Int
  | .second, f => second_count f
  | .minute, f => minute_count f
  | .hour, f => hour_count f
  | .day, f => ymd_ord_f f
  | .month, f => 12 * f.y + f.m
  | .year, f => f.y

/-! ## Bridges from C++ truncating division to Euclidean division

C++ `/` truncates toward zero and C++ `%` has the sign of the dividend;
Lean's `Int` `/` and `%` are Euclidean (nonnegative remainder for positive
divisor).  The lemmas below convert, for a positive divisor. -/

theorem tmod_neg_left (a b : Int) : (-a).tmod b = -(a.tmod b) := by
  simp only [Int.tmod_def, Int.neg_tdiv]
  ring

theorem tdiv_char (a b : Int) (hb : 0 < b) :
    a.tdiv b = if 0 ≤ a then a / b else -(-a / b) := by
  by_cases h : 0 ≤ a
  · simp only [h, if_true]
    exact Int.tdiv_eq_ediv h hb.le
  · simp only [h, if_false]
    have h2 := Int.neg_tdiv (-a) b
    rw [neg_neg] at h2
    rw [h2, Int.tdiv_eq_ediv (by omega) hb.le]

theorem tmod_char (a b : Int) (hb : 0 < b) :
    a.tmod b = if 0 ≤ a then a % b else -(-a % b) := by
  by_cases h : 0 ≤ a
  · simp only [h, if_true]
    exact Int.tmod_eq_emod h hb.le
  · simp only [h, if_false]
    have h2 := tmod_neg_left (-a) b
    rw [neg_neg] at h2
    rw [show a.tmod b = -((-a).tmod b) by omega, Int.tmod_eq_emod (by omega) hb.le]

theorem tmod_bounds (a b : Int) (hb : 0 < b) : -b < a.tmod b ∧ a.tmod b < b := by
  rw [tmod_char a b hb]
  by_cases h : 0 ≤ a
  · have h1 := Int.emod_nonneg a (by omega : b ≠ 0)
    have h2 := Int.emod_lt_of_pos a hb
    simp only [h, if_true]
    omega
  · have h1 := Int.emod_nonneg (-a) (by omega : b ≠ 0)
    have h2 := Int.emod_lt_of_pos (-a) hb
    simp only [h, if_false]
    omega

/-- Net effect of the normalization pattern `q = a / b; r = a % b;
if (r < 0) { q -= 1; r += b; }` used throughout the source: it computes
floored division, i.e. Euclidean division for a positive divisor. -/
theorem fix_divmod (a b : Int) (hb : 0 < b) :
    (if a.tmod b < 0 then a.tdiv b - 1 else a.tdiv b) = a / b ∧
      (if a.tmod b < 0 then a.tmod b + b else a.tmod b) = a % b := by
  have hd := tdiv_char a b hb
  have hm := tmod_char a b hb
  by_cases h : 0 ≤ a
  · simp only [h, if_true] at hd hm
    have h1 := Int.emod_nonneg a (by omega : b ≠ 0)
    constructor
    · rw [if_neg (by omega), hd]
    · rw [if_neg (by omega), hm]
  · simp only [h, if_false] at hd hm
    have h1 := Int.emod_nonneg (-a) (by omega : b ≠ 0)
    have h2 := Int.emod_lt_of_pos (-a) hb
    by_cases hz : -a % b = 0
    · have hq : a / b = -(-a / b) ∧ a % b = 0 := by
        have hne : -a = b * (-a / b) + -a % b := (Int.ediv_add_emod (-a) b).symm
        have hlin : b * -(-a / b) = -(b * (-a / b)) := by ring
        have := (@Int.ediv_emod_unique a b 0 (-(-a / b)) hb).mpr ⟨by omega, by omega, hb⟩
        exact ⟨this.1, this.2⟩
      constructor
      · rw [if_neg (by omega), hd, hq.1]
      · rw [if_neg (by omega), hm, hq.2, hz]
        ring
    · have hq : a / b = -(-a / b) - 1 ∧ a % b = b - -a % b := by
        have hne : -a = b * (-a / b) + -a % b := (Int.ediv_add_emod (-a) b).symm
        have hlin : b * (-(-a / b) - 1) = -(b * (-a / b)) - b := by ring
        have := (@Int.ediv_emod_unique a b (b - -a % b) (-(-a / b) - 1) hb).mpr
          ⟨by omega, by omega, by omega⟩
        exact ⟨this.1, this.2⟩
      constructor
      · rw [if_pos (by omega), hd, hq.1]
      · rw [if_pos (by omega), hm, hq.2]
        ring

theorem tmod_eq_zero_iff (a b : Int) (hb : 0 < b) : a.tmod b = 0 ↔ a % b = 0 := by
  rw [tmod_char a b hb]
  by_cases h : 0 ≤ a
  · simp [h]
  · simp only [h, if_false, neg_eq_zero]
    rw [← Int.dvd_iff_emod_eq_zero, ← Int.dvd_iff_emod_eq_zero, dvd_neg]

/-! ## Decomposition of the day ordinal -/

theorem doy_eq (m d : Int) : doy m d = doy_gen m + d - 1 := rfl

theorem ymd_ord_decomp (y m d : Int) :
    ymd_ord y m d = gdays (y - (if m ≤ 2 then 1 else 0)) + doy_gen m + d - 1 - 719468 := by
  unfold ymd_ord eymd_ord era_eymd_ord doe
  rw [doy_eq]
  have heq : (if m ≤ 2 then y - 1 else y) = y - (if m ≤ 2 then 1 else 0) := by
    split <;> omega
  rw [heq]
  set e := y - (if m ≤ 2 then 1 else 0) with he
  have hera : (if 0 ≤ e then e else e - 399).tdiv 400 = e / 400 := by
    by_cases h : 0 ≤ e
    · rw [if_pos h, Int.tdiv_eq_ediv h (by omega)]
    · rw [if_neg h, tdiv_char _ _ (by omega : (0:Int) < 400), if_neg (by omega)]
      omega
  rw [hera]
  have h0 : 0 ≤ e % 400 := Int.emod_nonneg e (by omega)
  have h1 : e % 400 < 400 := Int.emod_lt_of_pos e (by omega)
  have h2 : e % 400 = e - 400 * (e / 400) := by
    rw [Int.emod_def]
  have h3 : e - e / 400 * 400 = e % 400 := by omega
  rw [h3]
  rw [Int.tdiv_eq_ediv h0 (by omega), Int.tdiv_eq_ediv h0 (by omega)]
  unfold gdays
  omega

theorem gdays_step_400 (e k : Int) : gdays (e + 400 * k) = gdays e + 146097 * k := by
  unfold gdays
  have h4 : (e + 400 * k) / 4 = e / 4 + 100 * k := by
    rw [show e + 400 * k = e + (100 * k) * 4 by ring,
      Int.add_mul_ediv_right _ _ (by omega : (4:Int) ≠ 0)]
  have h100 : (e + 400 * k) / 100 = e / 100 + 4 * k := by
    rw [show e + 400 * k = e + (4 * k) * 100 by ring,
      Int.add_mul_ediv_right _ _ (by omega : (100:Int) ≠ 0)]
  have h400 : (e + 400 * k) / 400 = e / 400 + k := by
    rw [show e + 400 * k = e + k * 400 by ring,
      Int.add_mul_ediv_right _ _ (by omega : (400:Int) ≠ 0)]
  rw [h4, h100, h400]
  ring

theorem is_leap_year_iff (y : Int) :
    is_leap_year y = true ↔ (y % 4 = 0 ∧ (¬ y % 100 = 0 ∨ y % 400 = 0)) := by
  unfold is_leap_year
  rw [Bool.and_eq_true, Bool.or_eq_true, Bool.not_eq_true', beq_iff_eq, beq_iff_eq,
    beq_eq_false_iff_ne]
  rw [tmod_eq_zero_iff y 4 (by omega), tmod_eq_zero_iff y 400 (by omega)]
  constructor
  · rintro ⟨h1, h2⟩
    refine ⟨h1, ?_⟩
    rcases h2 with h | h
    · exact Or.inl fun hc => h ((tmod_eq_zero_iff y 100 (by omega)).mpr hc)
    · exact Or.inr h
  · rintro ⟨h1, h2⟩
    refine ⟨h1, ?_⟩
    rcases h2 with h | h
    · exact Or.inl fun hc => h ((tmod_eq_zero_iff y 100 (by omega)).mp hc)
    · exact Or.inr h

theorem gdays_step_1 (e : Int) :
    gdays (e + 1) = gdays e + 365 + (if is_leap_year (e + 1) then 1 else 0) := by
  unfold gdays
  cases h : is_leap_year (e + 1)
  · have h2 := (not_iff_not.mpr (is_leap_year_iff (e + 1))).mp (by simp [h])
    rw [if_neg (by simp [h])]
    push_neg at h2
    by_cases h4 : (e + 1) % 4 = 0
    · have h100 := h2 h4
      omega
    · omega
  · have h2 := (is_leap_year_iff (e + 1)).mp h
    rw [if_pos (by simp [h])]
    omega

set_option maxRecDepth 4000 in
/-- The `k_days_per_4years` table entry at cycle position `r` is exactly the
number of extra (leap) days of the 4-year window, expressed through floored
division: checked for all 400 cycle positions. -/
theorem quad_table_identity : ∀ r : Nat, r < 400 →
    k_days_per_4years.getD r 0 =
      ((r : Int) + 3) / 4 - ((r : Int) - 1) / 4
        - (((r : Int) + 3) / 100 - ((r : Int) - 1) / 100)
        + (((r : Int) + 3) / 400 - ((r : Int) - 1) / 400) := by
  decide

set_option maxRecDepth 4000 in
/-- The `k_days_per_century` table entry at cycle position `r`, expressed
through floored division: checked for all 400 cycle positions. -/
theorem century_table_identity : ∀ r : Nat, r < 400 →
    k_days_per_century.getD r 0 =
      ((r : Int) + 99) / 4 - ((r : Int) - 1) / 4
        - (((r : Int) + 99) / 100 - ((r : Int) - 1) / 100)
        + (((r : Int) + 99) / 400 - ((r : Int) - 1) / 400) - 24 := by
  decide

theorem year_index_eq (y m : Int) :
    year_index y m = (y + (if 2 < m then 1 else 0)) % 400 := by
  unfold year_index
  set a := y + (if 2 < m then 1 else 0) with ha
  have hb := tmod_bounds a 400 (by omega)
  have ht : a.tmod 400 = a - 400 * a.tdiv 400 := Int.tmod_def a 400
  rw [Int.tmod_eq_emod (by omega) (by omega)]
  rw [show a.tmod 400 + 400 = a + (1 - a.tdiv 400) * 400 by
    have hlin : (1 - a.tdiv 400) * 400 = 400 - 400 * a.tdiv 400 := by ring
    omega]
  rw [Int.add_mul_emod_self]

theorem year_index_bounds (y m : Int) : 0 ≤ year_index y m ∧ year_index y m < 400 := by
  rw [year_index_eq]
  exact ⟨Int.emod_nonneg _ (by omega), Int.emod_lt_of_pos _ (by omega)⟩

theorem shifted_year_eq (y m : Int) :
    y + (if 2 < m then 1 else 0) = y - (if m ≤ 2 then 1 else 0) + 1 := by
  by_cases h : 2 < m
  · rw [if_pos h, if_neg (by omega)]
    ring
  · rw [if_neg h, if_pos (by omega)]
    ring

theorem gdays_step_4 (e : Int) :
    gdays (e + 4) = gdays e + 1460 + k_days_per_4years.getD ((e + 1) % 400).toNat 0 := by
  obtain ⟨r, q, h0, h1, he⟩ : ∃ r q : Int, 0 ≤ r ∧ r < 400 ∧ e = r - 1 + 400 * q := by
    refine ⟨(e + 1) % 400, (e + 1) / 400, Int.emod_nonneg _ (by omega),
      Int.emod_lt_of_pos _ (by omega), ?_⟩
    have h2 := Int.emod_def (e + 1) 400
    omega
  have hidx : (e + 1) % 400 = r := by
    rw [he, show r - 1 + 400 * q + 1 = r + 400 * q by ring, Int.add_mul_emod_self_left,
      Int.emod_eq_of_lt h0 h1]
  rw [hidx]
  have htbl := quad_table_identity r.toNat (by omega)
  rw [Int.toNat_of_nonneg h0] at htbl
  rw [he, show r - 1 + 400 * q + 4 = r + 3 + 400 * q by ring, gdays_step_400,
    show r - 1 + 400 * q = (r - 1) + 400 * q by ring, gdays_step_400]
  unfold gdays
  omega

theorem gdays_step_100 (e : Int) :
    gdays (e + 100) = gdays e + 36524 + k_days_per_century.getD ((e + 1) % 400).toNat 0 := by
  obtain ⟨r, q, h0, h1, he⟩ : ∃ r q : Int, 0 ≤ r ∧ r < 400 ∧ e = r - 1 + 400 * q := by
    refine ⟨(e + 1) % 400, (e + 1) / 400, Int.emod_nonneg _ (by omega),
      Int.emod_lt_of_pos _ (by omega), ?_⟩
    have h2 := Int.emod_def (e + 1) 400
    omega
  have hidx : (e + 1) % 400 = r := by
    rw [he, show r - 1 + 400 * q + 1 = r + 400 * q by ring, Int.add_mul_emod_self_left,
      Int.emod_eq_of_lt h0 h1]
  rw [hidx]
  have htbl := century_table_identity r.toNat (by omega)
  rw [Int.toNat_of_nonneg h0] at htbl
  rw [he, show r - 1 + 400 * q + 100 = r + 99 + 400 * q by ring, gdays_step_400,
    show r - 1 + 400 * q = (r - 1) + 400 * q by ring, gdays_step_400]
  unfold gdays
  omega

/-! ## Step lemmas for `ymd_ord`: each loop body of `impl::n_day` preserves
the day ordinal. -/

theorem ymd_ord_step_400k (y m d k : Int) :
    ymd_ord (y + 400 * k) m d = ymd_ord y m d + 146097 * k := by
  rw [ymd_ord_decomp, ymd_ord_decomp,
    show y + 400 * k - (if m ≤ 2 then 1 else 0) = (y - (if m ≤ 2 then 1 else 0)) + 400 * k
      by ring, gdays_step_400]
  ring

theorem ymd_ord_step_year (y m d : Int) :
    ymd_ord (y + 1) m (d - days_per_year y m) = ymd_ord y m d := by
  rw [ymd_ord_decomp, ymd_ord_decomp,
    show y + 1 - (if m ≤ 2 then 1 else 0) = (y - (if m ≤ 2 then 1 else 0)) + 1 by ring,
    gdays_step_1]
  unfold days_per_year
  rw [shifted_year_eq]
  cases hL : is_leap_year (y - (if m ≤ 2 then 1 else 0) + 1)
  · simp only [hL, Bool.false_eq_true, if_false]
    ring
  · simp only [hL, if_true]
    ring

theorem ymd_ord_step_4years (y m d : Int) :
    ymd_ord (y + 4) m (d - days_per_4years y m) = ymd_ord y m d := by
  rw [ymd_ord_decomp, ymd_ord_decomp,
    show y + 4 - (if m ≤ 2 then 1 else 0) = (y - (if m ≤ 2 then 1 else 0)) + 4 by ring,
    gdays_step_4]
  unfold days_per_4years
  rw [year_index_eq, shifted_year_eq]
  ring

theorem ymd_ord_step_century (y m d : Int) :
    ymd_ord (y + 100) m (d - days_per_century y m) = ymd_ord y m d := by
  rw [ymd_ord_decomp, ymd_ord_decomp,
    show y + 100 - (if m ≤ 2 then 1 else 0) = (y - (if m ≤ 2 then 1 else 0)) + 100 by ring,
    gdays_step_100]
  unfold days_per_century
  rw [year_index_eq, shifted_year_eq]
  ring

theorem days_per_month_feb (y : Int) :
    days_per_month y 2 = 28 + (if is_leap_year y then 1 else 0) := by
  unfold days_per_month
  cases hL : is_leap_year y
  · rw [if_neg (by simp [hL]), if_neg (by simp [hL])]
    decide
  · rw [if_pos (by simp [hL]), if_pos (by simp [hL])]
    decide

theorem ymd_ord_step_month (y m d : Int) (hm1 : 1 ≤ m) (hm2 : m ≤ 11) :
    ymd_ord y (m + 1) (d - days_per_month y m) = ymd_ord y m d := by
  have hfeb : ymd_ord y 3 (d - days_per_month y 2) = ymd_ord y 2 d := by
    rw [ymd_ord_decomp, ymd_ord_decomp, days_per_month_feb]
    have hg : gdays y = gdays (y - 1) + 365 + (if is_leap_year y then 1 else 0) := by
      have h0 := gdays_step_1 (y - 1)
      norm_num at h0
      exact h0
    have h3 : doy_gen 3 = 0 := by decide
    have h2 : doy_gen 2 = 337 := by decide
    norm_num [h2, h3]
    cases hL : is_leap_year y
    · simp only [hL, Bool.false_eq_true, if_false] at hg ⊢
      omega
    · simp only [hL, if_true] at hg ⊢
      omega
  interval_cases m
  · rw [ymd_ord_decomp, ymd_ord_decomp, show days_per_month y 1 = 31 from rfl]
    have h1 : doy_gen 2 = 337 := by decide
    have h2 : doy_gen 1 = 306 := by decide
    norm_num [h1, h2] <;> omega
  · exact hfeb
  · rw [ymd_ord_decomp, ymd_ord_decomp, show days_per_month y 3 = 31 from rfl]
    have h1 : doy_gen 4 = 31 := by decide
    have h2 : doy_gen 3 = 0 := by decide
    norm_num [h1, h2] <;> omega
  · rw [ymd_ord_decomp, ymd_ord_decomp, show days_per_month y 4 = 30 from rfl]
    have h1 : doy_gen 5 = 61 := by decide
    have h2 : doy_gen 4 = 31 := by decide
    norm_num [h1, h2] <;> omega
  · rw [ymd_ord_decomp, ymd_ord_decomp, show days_per_month y 5 = 31 from rfl]
    have h1 : doy_gen 6 = 92 := by decide
    have h2 : doy_gen 5 = 61 := by decide
    norm_num [h1, h2] <;> omega
  · rw [ymd_ord_decomp, ymd_ord_decomp, show days_per_month y 6 = 30 from rfl]
    have h1 : doy_gen 7 = 122 := by decide
    have h2 : doy_gen 6 = 92 := by decide
    norm_num [h1, h2] <;> omega
  · rw [ymd_ord_decomp, ymd_ord_decomp, show days_per_month y 7 = 31 from rfl]
    have h1 : doy_gen 8 = 153 := by decide
    have h2 : doy_gen 7 = 122 := by decide
    norm_num [h1, h2] <;> omega
  · rw [ymd_ord_decomp, ymd_ord_decomp, show days_per_month y 8 = 31 from rfl]
    have h1 : doy_gen 9 = 184 := by decide
    have h2 : doy_gen 8 = 153 := by decide
    norm_num [h1, h2] <;> omega
  · rw [ymd_ord_decomp, ymd_ord_decomp, show days_per_month y 9 = 30 from rfl]
    have h1 : doy_gen 10 = 214 := by decide
    have h2 : doy_gen 9 = 184 := by decide
    norm_num [h1, h2] <;> omega
  · rw [ymd_ord_decomp, ymd_ord_decomp, show days_per_month y 10 = 31 from rfl]
    have h1 : doy_gen 11 = 245 := by decide
    have h2 : doy_gen 10 = 214 := by decide
    norm_num [h1, h2] <;> omega
  · rw [ymd_ord_decomp, ymd_ord_decomp, show days_per_month y 11 = 30 from rfl]
    have h1 : doy_gen 12 = 275 := by decide
    have h2 : doy_gen 11 = 245 := by decide
    norm_num [h1, h2] <;> omega

theorem ymd_ord_step_december (y d : Int) :
    ymd_ord (y + 1) 1 (d - days_per_month y 12) = ymd_ord y 12 d := by
  rw [ymd_ord_decomp, ymd_ord_decomp, show days_per_month y 12 = 31 from rfl]
  have h1 : doy_gen 1 = 306 := by decide
  have h2 : doy_gen 12 = 275 := by decide
  norm_num [h1, h2]
  ring

/-! ## Table entry bounds and loop invariants -/

set_option maxRecDepth 4000 in
theorem century_entry_bounds (i : Nat) :
    0 ≤ k_days_per_century.getD i 0 ∧ k_days_per_century.getD i 0 ≤ 1 := by
  by_cases h : i < 400
  · have := century_table_identity i h
    omega
  · have hlen : k_days_per_century.length = 400 := rfl
    rw [List.getD_eq_getElem?_getD, List.getElem?_eq_none (by omega)]
    simp

set_option maxRecDepth 4000 in
theorem quad_entry_bounds (i : Nat) :
    0 ≤ k_days_per_4years.getD i 0 ∧ k_days_per_4years.getD i 0 ≤ 1 := by
  by_cases h : i < 400
  · have := quad_table_identity i h
    omega
  · have hlen : k_days_per_4years.length = 400 := rfl
    rw [List.getD_eq_getElem?_getD, List.getElem?_eq_none (by omega)]
    simp

theorem days_per_century_bounds (y m : Int) :
    36524 ≤ days_per_century y m ∧ days_per_century y m ≤ 36525 := by
  unfold days_per_century
  have := century_entry_bounds (year_index y m).toNat
  omega

theorem days_per_4years_bounds (y m : Int) :
    1460 ≤ days_per_4years y m ∧ days_per_4years y m ≤ 1461 := by
  unfold days_per_4years
  have := quad_entry_bounds (year_index y m).toNat
  omega

theorem days_per_year_bounds (y m : Int) :
    365 ≤ days_per_year y m ∧ days_per_year y m ≤ 366 := by
  unfold days_per_year
  split <;> omega

theorem days_per_month_bounds (y m : Int) (hm1 : 1 ≤ m) (hm2 : m ≤ 12) :
    28 ≤ days_per_month y m ∧ days_per_month y m ≤ 31 := by
  interval_cases m
  · rw [show days_per_month y 1 = 31 from rfl]; omega
  · rw [days_per_month_feb]; split <;> omega
  · rw [show days_per_month y 3 = 31 from rfl]; omega
  · rw [show days_per_month y 4 = 30 from rfl]; omega
  · rw [show days_per_month y 5 = 31 from rfl]; omega
  · rw [show days_per_month y 6 = 30 from rfl]; omega
  · rw [show days_per_month y 7 = 31 from rfl]; omega
  · rw [show days_per_month y 8 = 31 from rfl]; omega
  · rw [show days_per_month y 9 = 30 from rfl]; omega
  · rw [show days_per_month y 10 = 31 from rfl]; omega
  · rw [show days_per_month y 11 = 30 from rfl]; omega
  · rw [show days_per_month y 12 = 31 from rfl]; omega

theorem days_century_loop_spec : ∀ (fuel : Nat) (y m d : Int), 0 < d → d.toNat ≤ fuel →
    0 < (days_century_loop fuel y m d).2 ∧
      (days_century_loop fuel y m d).2 ≤ days_per_century (days_century_loop fuel y m d).1 m ∧
      ymd_ord (days_century_loop fuel y m d).1 m (days_century_loop fuel y m d).2 =
        ymd_ord y m d := by
  intro fuel
  induction fuel with
  | zero =>
    intro y m d hd hf
    omega
  | succ n ih =>
    intro y m d hd hf
    simp only [days_century_loop]
    by_cases h : days_per_century y m < d
    · rw [if_pos h]
      have hlb := days_per_century_bounds y m
      have hrec := ih (y + 100) m (d - days_per_century y m) (by omega) (by omega)
      exact ⟨hrec.1, hrec.2.1, hrec.2.2.trans (ymd_ord_step_century y m d)⟩
    · rw [if_neg h]
      refine ⟨hd, ?_, rfl⟩
      show d ≤ days_per_century y m
      omega

theorem days_4years_loop_spec : ∀ (fuel : Nat) (y m d : Int), 0 < d → d.toNat ≤ fuel →
    0 < (days_4years_loop fuel y m d).2 ∧
      (days_4years_loop fuel y m d).2 ≤ days_per_4years (days_4years_loop fuel y m d).1 m ∧
      ymd_ord (days_4years_loop fuel y m d).1 m (days_4years_loop fuel y m d).2 =
        ymd_ord y m d := by
  intro fuel
  induction fuel with
  | zero =>
    intro y m d hd hf
    omega
  | succ n ih =>
    intro y m d hd hf
    simp only [days_4years_loop]
    by_cases h : days_per_4years y m < d
    · rw [if_pos h]
      have hlb := days_per_4years_bounds y m
      have hrec := ih (y + 4) m (d - days_per_4years y m) (by omega) (by omega)
      exact ⟨hrec.1, hrec.2.1, hrec.2.2.trans (ymd_ord_step_4years y m d)⟩
    · rw [if_neg h]
      refine ⟨hd, ?_, rfl⟩
      show d ≤ days_per_4years y m
      omega

theorem days_year_loop_spec : ∀ (fuel : Nat) (y m d : Int), 0 < d → d.toNat ≤ fuel →
    0 < (days_year_loop fuel y m d).2 ∧
      (days_year_loop fuel y m d).2 ≤ days_per_year (days_year_loop fuel y m d).1 m ∧
      ymd_ord (days_year_loop fuel y m d).1 m (days_year_loop fuel y m d).2 =
        ymd_ord y m d := by
  intro fuel
  induction fuel with
  | zero =>
    intro y m d hd hf
    omega
  | succ n ih =>
    intro y m d hd hf
    simp only [days_year_loop]
    by_cases h : days_per_year y m < d
    · rw [if_pos h]
      have hlb := days_per_year_bounds y m
      have hrec := ih (y + 1) m (d - days_per_year y m) (by omega) (by omega)
      exact ⟨hrec.1, hrec.2.1, hrec.2.2.trans (ymd_ord_step_year y m d)⟩
    · rw [if_neg h]
      refine ⟨hd, ?_, rfl⟩
      show d ≤ days_per_year y m
      omega

theorem days_month_loop_spec : ∀ (fuel : Nat) (y m d : Int), 0 < d → d.toNat ≤ fuel →
    1 ≤ m → m ≤ 12 →
    1 ≤ (days_month_loop fuel y m d).2.1 ∧ (days_month_loop fuel y m d).2.1 ≤ 12 ∧
      0 < (days_month_loop fuel y m d).2.2 ∧
      (days_month_loop fuel y m d).2.2 ≤
        days_per_month (days_month_loop fuel y m d).1 (days_month_loop fuel y m d).2.1 ∧
      ymd_ord (days_month_loop fuel y m d).1 (days_month_loop fuel y m d).2.1
        (days_month_loop fuel y m d).2.2 = ymd_ord y m d := by
  intro fuel
  induction fuel with
  | zero =>
    intro y m d hd hf hm1 hm2
    omega
  | succ n ih =>
    intro y m d hd hf hm1 hm2
    simp only [days_month_loop]
    have hlb := days_per_month_bounds y m hm1 hm2
    by_cases h : days_per_month y m < d
    · rw [if_pos h]
      by_cases h12 : m = 12
      · rw [if_pos h12]
        subst h12
        have hrec := ih (y + 1) 1 (d - days_per_month y 12) (by omega) (by omega)
          (by omega) (by omega)
        exact ⟨hrec.1, hrec.2.1, hrec.2.2.1, hrec.2.2.2.1,
          hrec.2.2.2.2.trans (ymd_ord_step_december y d)⟩
      · rw [if_neg h12]
        have hrec := ih y (m + 1) (d - days_per_month y m) (by omega) (by omega)
          (by omega) (by omega)
        exact ⟨hrec.1, hrec.2.1, hrec.2.2.1, hrec.2.2.2.1,
          hrec.2.2.2.2.trans (ymd_ord_step_month y m d hm1 (by omega))⟩
    · rw [if_neg h]
      refine ⟨hm1, hm2, hd, ?_, rfl⟩
      show d ≤ days_per_month y m
      omega

theorem n_day_core_spec (y m dd : Int) (hm1 : 1 ≤ m) (hm2 : m ≤ 12) (hd : 0 < dd) :
    1 ≤ (n_day_core y m dd).2.1 ∧ (n_day_core y m dd).2.1 ≤ 12 ∧
      1 ≤ (n_day_core y m dd).2.2 ∧
      (n_day_core y m dd).2.2 ≤ days_per_month (n_day_core y m dd).1 (n_day_core y m dd).2.1 ∧
      ymd_ord (n_day_core y m dd).1 (n_day_core y m dd).2.1 (n_day_core y m dd).2.2 =
        ymd_ord y m dd := by
  unfold n_day_core
  have h1 := days_century_loop_spec dd.toNat y m dd hd le_rfl
  set p1 := days_century_loop dd.toNat y m dd with hp1
  have h2 := days_4years_loop_spec p1.2.toNat p1.1 m p1.2 h1.1 le_rfl
  set p2 := days_4years_loop p1.2.toNat p1.1 m p1.2 with hp2
  have h3 := days_year_loop_spec p2.2.toNat p2.1 m p2.2 h2.1 le_rfl
  set p3 := days_year_loop p2.2.toNat p2.1 m p2.2 with hp3
  have h4 := days_month_loop_spec p3.2.toNat p3.1 m p3.2 h3.1 le_rfl hm1 hm2
  set p4 := days_month_loop p3.2.toNat p3.1 m p3.2 with hp4
  refine ⟨h4.1, h4.2.1, h4.2.2.1, h4.2.2.2.1, ?_⟩
  rw [h4.2.2.2.2, h3.2.2, h2.2.2, h1.2.2]

/-- Linearity of the ordinal in the day argument. -/
theorem ymd_ord_linear_d (y m d x : Int) : ymd_ord y m (d + x) = ymd_ord y m d + x := by
  rw [ymd_ord_decomp, ymd_ord_decomp]
  ring

/-- Master theorem for `impl::n_day`: for a month already in `[1, 12]` and
arbitrary integers `d` and `c`, the result is a canonical date whose ordinal
is exactly `ymd_ord y m d + c`, and the time-of-day fields pass through. -/
theorem n_day_spec (y m d c hh mm ss : Int) (hm1 : 1 ≤ m) (hm2 : m ≤ 12) :
    canonicalDate (n_day y m d c hh mm ss) ∧
      ymd_ord_f (n_day y m d c hh mm ss) = ymd_ord y m d + c ∧
      (n_day y m d c hh mm ss).hh = hh ∧ (n_day y m d c hh mm ss).mm = mm ∧
      (n_day y m d c hh mm ss).ss = ss := by
  have hfix := fix_divmod c 146097 (by omega)
  have hcm := Int.emod_nonneg c (by omega : (146097:Int) ≠ 0)
  have hcl := Int.emod_lt_of_pos c (by omega : (0:Int) < 146097)
  have hcd := Int.emod_def c 146097
  have htb := tmod_bounds d 146097 (by omega)
  have htd := Int.tdiv_add_tmod d 146097
  obtain ⟨y4, d2, k, hy4, hd2, hpos, hsum⟩ :
      ∃ y4 d2 k : Int,
        y4 = (if d.tmod 146097 + (if c.tmod 146097 < 0 then c.tmod 146097 + 146097
                else c.tmod 146097) ≤ 0
              then (if c.tmod 146097 < 0 then y + c.tdiv 146097 * 400 - 400
                    else y + c.tdiv 146097 * 400) + d.tdiv 146097 * 400 - 400
              else (if c.tmod 146097 < 0 then y + c.tdiv 146097 * 400 - 400
                    else y + c.tdiv 146097 * 400) + d.tdiv 146097 * 400) ∧
        d2 = (if d.tmod 146097 + (if c.tmod 146097 < 0 then c.tmod 146097 + 146097
                else c.tmod 146097) ≤ 0
              then d.tmod 146097 + (if c.tmod 146097 < 0 then c.tmod 146097 + 146097
                    else c.tmod 146097) + 146097
              else d.tmod 146097 + (if c.tmod 146097 < 0 then c.tmod 146097 + 146097
                    else c.tmod 146097)) ∧
        0 < d2 ∧ y4 = y + 400 * k ∧ d2 = d + c - 146097 * k := by
    refine ⟨_, _, c / 146097 + d.tdiv 146097 +
      (if d.tmod 146097 + c % 146097 ≤ 0 then -1 else 0), rfl, rfl, ?_, ?_, ?_⟩
    · have hc2 : (if c.tmod 146097 < 0 then c.tmod 146097 + 146097 else c.tmod 146097) =
          c % 146097 := hfix.2
      rw [hc2]
      split <;> omega
    · have hc1 : (if c.tmod 146097 < 0 then c.tdiv 146097 - 1 else c.tdiv 146097) =
          c / 146097 := hfix.1
      have hc2 : (if c.tmod 146097 < 0 then c.tmod 146097 + 146097 else c.tmod 146097) =
          c % 146097 := hfix.2
      rw [hc2]
      by_cases hneg : c.tmod 146097 < 0
      · simp only [if_pos hneg] at hc1 ⊢
        split <;> omega
      · simp only [if_neg hneg] at hc1 ⊢
        split <;> omega
    · have hc1 : (if c.tmod 146097 < 0 then c.tdiv 146097 - 1 else c.tdiv 146097) =
          c / 146097 := hfix.1
      have hc2 : (if c.tmod 146097 < 0 then c.tmod 146097 + 146097 else c.tmod 146097) =
          c % 146097 := hfix.2
      rw [hc2]
      by_cases hneg : c.tmod 146097 < 0
      · simp only [if_pos hneg] at hc1 ⊢
        split <;> omega
      · simp only [if_neg hneg] at hc1 ⊢
        split <;> omega
  have hcore := n_day_core_spec y4 m d2 hm1 hm2 hpos
  have hord : ymd_ord y4 m d2 = ymd_ord y m d + c := by
    rw [hsum.1, hsum.2]
    rw [show y + 400 * k = y + 400 * k from rfl]
    rw [ymd_ord_step_400k]
    rw [show d + c - 146097 * k = d + (c - 146097 * k) by ring, ymd_ord_linear_d]
    ring
  have hexp : n_day y m d c hh mm ss =
      ⟨(n_day_core y4 m d2).1, (n_day_core y4 m d2).2.1, (n_day_core y4 m d2).2.2,
        hh, mm, ss⟩ := by
    rw [hy4, hd2]
    rfl
  rw [hexp]
  refine ⟨⟨hcore.1, hcore.2.1, hcore.2.2.1, hcore.2.2.2.1⟩, ?_, rfl, rfl, rfl⟩
  show ymd_ord (n_day_core y4 m d2).1 (n_day_core y4 m d2).2.1 (n_day_core y4 m d2).2.2 =
    ymd_ord y m d + c
  rw [hcore.2.2.2.2, hord]

/-! ## Cascade specifications for `n_mon`, `n_hour`, `n_min`, `n_sec` -/

/-- The months-to-years stage of `impl::n_mon` computes floored division:
`year + ⌊(month-1)/12⌋` and `((month-1) mod 12) + 1`. -/
theorem n_mon_eq (y m d cd hh mm ss : Int) :
    n_mon y m d cd hh mm ss = n_day (y + (m - 1) / 12) ((m - 1) % 12 + 1) d cd hh mm ss := by
  simp only [n_mon]
  have h1 : (if m.tmod 12 ≤ 0 then y + m.tdiv 12 - 1 else y + m.tdiv 12) = y + (m - 1) / 12 := by
    rw [tdiv_char m 12 (by omega), tmod_char m 12 (by omega)]
    by_cases hm : 0 ≤ m
    · simp only [hm, if_true]
      split <;> omega
    · simp only [hm, if_false]
      split <;> omega
  have h2 : (if m.tmod 12 ≤ 0 then m.tmod 12 + 12 else m.tmod 12) = (m - 1) % 12 + 1 := by
    rw [tmod_char m 12 (by omega)]
    by_cases hm : 0 ≤ m
    · simp only [hm, if_true]
      split <;> omega
    · simp only [hm, if_false]
      split <;> omega
  rw [h1, h2]

theorem month_norm_bounds (m : Int) : 1 ≤ (m - 1) % 12 + 1 ∧ (m - 1) % 12 + 1 ≤ 12 := by
  have h1 := Int.emod_nonneg (m - 1) (by omega : (12:Int) ≠ 0)
  have h2 := Int.emod_lt_of_pos (m - 1) (by omega : (0:Int) < 12)
  omega

theorem n_mon_spec (y m d cd hh mm ss : Int) :
    canonicalDate (n_mon y m d cd hh mm ss) ∧
      ymd_ord_f (n_mon y m d cd hh mm ss) = ymd_ord (y + (m - 1) / 12) ((m - 1) % 12 + 1) d + cd ∧
      (n_mon y m d cd hh mm ss).hh = hh ∧ (n_mon y m d cd hh mm ss).mm = mm ∧
      (n_mon y m d cd hh mm ss).ss = ss := by
  rw [n_mon_eq]
  exact n_day_spec _ _ d cd hh mm ss (month_norm_bounds m).1 (month_norm_bounds m).2

theorem n_hour_spec (y m d c hh mm ss : Int) :
    canonicalDate (n_hour y m d c hh mm ss) ∧
      0 ≤ (n_hour y m d c hh mm ss).hh ∧ (n_hour y m d c hh mm ss).hh < 24 ∧
      (n_hour y m d c hh mm ss).mm = mm ∧ (n_hour y m d c hh mm ss).ss = ss ∧
      hour_count (n_hour y m d c hh mm ss) =
        (ymd_ord (y + (m - 1) / 12) ((m - 1) % 12 + 1) d + c) * 24 + hh := by
  have hfix := fix_divmod hh 24 (by omega)
  have hph : 24 * (hh / 24) + hh % 24 = hh := Int.ediv_add_emod hh 24
  have hbm := Int.emod_nonneg hh (by omega : (24:Int) ≠ 0)
  have hbl := Int.emod_lt_of_pos hh (by omega : (0:Int) < 24)
  simp only [n_hour]
  have h1 : (if hh.tmod 24 < 0 then c + hh.tdiv 24 - 1 else c + hh.tdiv 24) = c + hh / 24 := by
    rcases hfix with ⟨hq, _⟩
    split at hq <;> split <;> omega
  have h2 : (if hh.tmod 24 < 0 then hh.tmod 24 + 24 else hh.tmod 24) = hh % 24 := hfix.2
  rw [h1, h2]
  obtain ⟨hc, hord, hhh, hmm, hss⟩ := n_mon_spec y m d (c + hh / 24) (hh % 24) mm ss
  refine ⟨hc, ?_, ?_, hmm, hss, ?_⟩
  · rw [hhh]
    omega
  · rw [hhh]
    omega
  · unfold hour_count
    rw [hord, hhh]
    have : (ymd_ord (y + (m - 1) / 12) ((m - 1) % 12 + 1) d + (c + hh / 24)) * 24 =
        (ymd_ord (y + (m - 1) / 12) ((m - 1) % 12 + 1) d + c) * 24 + 24 * (hh / 24) := by
      ring
    omega

theorem n_min_spec (y m d hh c mm ss : Int) :
    canonicalDate (n_min y m d hh c mm ss) ∧
      0 ≤ (n_min y m d hh c mm ss).hh ∧ (n_min y m d hh c mm ss).hh < 24 ∧
      0 ≤ (n_min y m d hh c mm ss).mm ∧ (n_min y m d hh c mm ss).mm < 60 ∧
      (n_min y m d hh c mm ss).ss = ss ∧
      minute_count (n_min y m d hh c mm ss) =
        ((ymd_ord (y + (m - 1) / 12) ((m - 1) % 12 + 1) d * 24 + hh) + c) * 60 + mm := by
  have hfix := fix_divmod mm 60 (by omega)
  have hpm : 60 * (mm / 60) + mm % 60 = mm := Int.ediv_add_emod mm 60
  have hbm := Int.emod_nonneg mm (by omega : (60:Int) ≠ 0)
  have hbl := Int.emod_lt_of_pos mm (by omega : (0:Int) < 60)
  simp only [n_min]
  have h1 : (if mm.tmod 60 < 0 then c + mm.tdiv 60 - 1 else c + mm.tdiv 60) = c + mm / 60 := by
    rcases hfix with ⟨hq, _⟩
    split at hq <;> split <;> omega
  have h2 : (if mm.tmod 60 < 0 then mm.tmod 60 + 60 else mm.tmod 60) = mm % 60 := hfix.2
  rw [h1, h2]
  have hth := Int.tdiv_add_tmod hh 24
  have htc := Int.tdiv_add_tmod (c + mm / 60) 24
  obtain ⟨hc, hh0, hh24, hmm', hss, hcount⟩ :=
    n_hour_spec y m d (hh.tdiv 24 + (c + mm / 60).tdiv 24)
      (hh.tmod 24 + (c + mm / 60).tmod 24) (mm % 60) ss
  refine ⟨hc, hh0, hh24, ?_, ?_, hss, ?_⟩
  · rw [hmm']
    omega
  · rw [hmm']
    omega
  · unfold minute_count hour_count
    rw [hmm']
    unfold hour_count at hcount
    have hexp : (ymd_ord (y + (m - 1) / 12) ((m - 1) % 12 + 1) d +
        (hh.tdiv 24 + (c + mm / 60).tdiv 24)) * 24 =
        ymd_ord (y + (m - 1) / 12) ((m - 1) % 12 + 1) d * 24 +
          24 * hh.tdiv 24 + 24 * (c + mm / 60).tdiv 24 := by
      ring
    have hgoal : (ymd_ord (y + (m - 1) / 12) ((m - 1) % 12 + 1) d * 24 + hh + c) * 60 + mm =
        (ymd_ord (y + (m - 1) / 12) ((m - 1) % 12 + 1) d * 24 + hh + c) * 60 + mm := rfl
    have he : (ymd_ord (y + (m - 1) / 12) ((m - 1) % 12 + 1) d * 24 + hh +
        (c + mm / 60)) * 60 = (ymd_ord (y + (m - 1) / 12) ((m - 1) % 12 + 1) d * 24 + hh + c) *
          60 + 60 * (mm / 60) := by
      ring
    omega

theorem n_sec_spec (y m d hh mm ss : Int) :
    isCanonical (n_sec y m d hh mm ss) ∧
      second_count (n_sec y m d hh mm ss) =
        ((ymd_ord (y + (m - 1) / 12) ((m - 1) % 12 + 1) d * 24 + hh) * 60 + mm) * 60 + ss := by
  have hfix := fix_divmod ss 60 (by omega)
  have hps : 60 * (ss / 60) + ss % 60 = ss := Int.ediv_add_emod ss 60
  have hbm := Int.emod_nonneg ss (by omega : (60:Int) ≠ 0)
  have hbl := Int.emod_lt_of_pos ss (by omega : (0:Int) < 60)
  simp only [n_sec]
  have h1 : (if ss.tmod 60 < 0 then ss.tdiv 60 - 1 else ss.tdiv 60) = ss / 60 := hfix.1
  have h2 : (if ss.tmod 60 < 0 then ss.tmod 60 + 60 else ss.tmod 60) = ss % 60 := hfix.2
  rw [h1, h2]
  have htm := Int.tdiv_add_tmod mm 60
  have htc := Int.tdiv_add_tmod (ss / 60) 60
  obtain ⟨hc, hh0, hh24, hm0, hm60, hss', hcount⟩ :=
    n_min_spec y m d hh (mm.tdiv 60 + (ss / 60).tdiv 60)
      (mm.tmod 60 + (ss / 60).tmod 60) (ss % 60)
  refine ⟨⟨hc, hh0, hh24, hm0, hm60, ?_, ?_⟩, ?_⟩
  · rw [hss']
    omega
  · rw [hss']
    omega
  · unfold second_count minute_count hour_count
    rw [hss']
    unfold minute_count hour_count at hcount
    set o := ymd_ord (y + (m - 1) / 12) ((m - 1) % 12 + 1) d with ho
    have he : (o * 24 + hh + (mm.tdiv 60 + (ss / 60).tdiv 60)) * 60 =
        (o * 24 + hh) * 60 + 60 * mm.tdiv 60 + 60 * (ss / 60).tdiv 60 := by
      ring
    have hg : ((o * 24 + hh) * 60 + mm + ss / 60) * 60 =
        ((o * 24 + hh) * 60 + mm) * 60 + 60 * (ss / 60) := by
      ring
    omega

/-! ## Strict monotonicity and injectivity of the ordinal on canonical dates -/

theorem ymd_ord_month_step_first (y m : Int) (hm1 : 1 ≤ m) (hm2 : m ≤ 11) :
    ymd_ord y (m + 1) 1 = ymd_ord y m 1 + days_per_month y m := by
  have h := ymd_ord_step_month y m (days_per_month y m + 1) hm1 hm2
  rw [show days_per_month y m + 1 - days_per_month y m = 1 by ring] at h
  rw [h, show days_per_month y m + 1 = 1 + days_per_month y m by ring, ymd_ord_linear_d]

theorem ymd_ord_dec_step_first (y : Int) : ymd_ord (y + 1) 1 1 = ymd_ord y 12 1 + 31 := by
  have h := ymd_ord_step_december y 32
  rw [show days_per_month y 12 = 31 from rfl] at h
  norm_num at h
  rw [h, show (32:Int) = 1 + 31 by norm_num, ymd_ord_linear_d]

theorem ymd_ord_year_step_first (y : Int) :
    ymd_ord (y + 1) 1 1 = ymd_ord y 1 1 + days_per_year y 1 := by
  have h := ymd_ord_step_year y 1 (days_per_year y 1 + 1)
  rw [show days_per_year y 1 + 1 - days_per_year y 1 = 1 by ring] at h
  rw [h, show days_per_year y 1 + 1 = 1 + days_per_year y 1 by ring, ymd_ord_linear_d]

theorem ymd_ord_month_le (y m1 m2 : Int) (h1 : 1 ≤ m1) (hlt : m1 < m2) (h2 : m2 ≤ 12) :
    ymd_ord y m1 1 + days_per_month y m1 ≤ ymd_ord y m2 1 := by
  have s1 := ymd_ord_month_step_first y 1 (by omega) (by omega)
  have s2 := ymd_ord_month_step_first y 2 (by omega) (by omega)
  have s3 := ymd_ord_month_step_first y 3 (by omega) (by omega)
  have s4 := ymd_ord_month_step_first y 4 (by omega) (by omega)
  have s5 := ymd_ord_month_step_first y 5 (by omega) (by omega)
  have s6 := ymd_ord_month_step_first y 6 (by omega) (by omega)
  have s7 := ymd_ord_month_step_first y 7 (by omega) (by omega)
  have s8 := ymd_ord_month_step_first y 8 (by omega) (by omega)
  have s9 := ymd_ord_month_step_first y 9 (by omega) (by omega)
  have s10 := ymd_ord_month_step_first y 10 (by omega) (by omega)
  have s11 := ymd_ord_month_step_first y 11 (by omega) (by omega)
  have b1 := days_per_month_bounds y 1 (by omega) (by omega)
  have b2 := days_per_month_bounds y 2 (by omega) (by omega)
  have b3 := days_per_month_bounds y 3 (by omega) (by omega)
  have b4 := days_per_month_bounds y 4 (by omega) (by omega)
  have b5 := days_per_month_bounds y 5 (by omega) (by omega)
  have b6 := days_per_month_bounds y 6 (by omega) (by omega)
  have b7 := days_per_month_bounds y 7 (by omega) (by omega)
  have b8 := days_per_month_bounds y 8 (by omega) (by omega)
  have b9 := days_per_month_bounds y 9 (by omega) (by omega)
  have b10 := days_per_month_bounds y 10 (by omega) (by omega)
  have b11 := days_per_month_bounds y 11 (by omega) (by omega)
  have hm1 : m1 ≤ 11 := by omega
  norm_num at s1 s2 s3 s4 s5 s6 s7 s8 s9 s10 s11
  interval_cases m1 <;> interval_cases m2 <;> omega

theorem ymd_ord_d_decomp (y m d : Int) : ymd_ord y m d = ymd_ord y m 1 + (d - 1) := by
  have h := ymd_ord_linear_d y m 1 (d - 1)
  rw [show (1 : Int) + (d - 1) = d by ring] at h
  omega

theorem ymd_ord_lt_next_year (f : Fields) (hc : canonicalDate f) :
    ymd_ord_f f < ymd_ord (f.y + 1) 1 1 := by
  obtain ⟨hm1, hm2, hd1, hd2⟩ := hc
  have hdec := ymd_ord_dec_step_first f.y
  unfold ymd_ord_f
  have hlin := ymd_ord_d_decomp f.y f.m f.d
  by_cases h12 : f.m = 12
  · rw [h12] at hlin hd2 ⊢
    rw [show days_per_month f.y 12 = 31 from rfl] at hd2
    omega
  · have hle := ymd_ord_month_le f.y f.m 12 hm1 (by omega) le_rfl
    have hbm := days_per_month_bounds f.y f.m hm1 hm2
    have hb12 := days_per_month_bounds f.y 12 (by omega) (by omega)
    omega

theorem ymd_ord_year_le_ord (f : Fields) (hc : canonicalDate f) :
    ymd_ord f.y 1 1 ≤ ymd_ord_f f := by
  obtain ⟨hm1, hm2, hd1, hd2⟩ := hc
  unfold ymd_ord_f
  have hlin := ymd_ord_d_decomp f.y f.m f.d
  by_cases h1 : f.m = 1
  · rw [h1] at hlin ⊢
    omega
  · have hle := ymd_ord_month_le f.y 1 f.m (by omega) (by omega) hm2
    have hbm := days_per_month_bounds f.y 1 (by omega) (by omega)
    omega

theorem ymd_ord_year_mono_nat : ∀ (k : Nat) (y : Int),
    ymd_ord y 1 1 + 365 * k ≤ ymd_ord (y + k) 1 1 := by
  intro k
  induction k with
  | zero =>
    intro y
    simp
  | succ n ih =>
    intro y
    have h1 := ih y
    have h2 := ymd_ord_year_step_first (y + n)
    have hb := days_per_year_bounds (y + n) 1
    have hcast : ((n + 1 : Nat) : Int) = (n : Int) + 1 := by push_cast; ring
    rw [hcast, show y + ((n : Int) + 1) = y + (n : Int) + 1 by ring]
    omega

theorem ymd_ord_year_lt (y1 y2 : Int) (h : y1 < y2) :
    ymd_ord (y1 + 1) 1 1 ≤ ymd_ord y2 1 1 := by
  have hk := ymd_ord_year_mono_nat (y2 - (y1 + 1)).toNat (y1 + 1)
  rw [Int.toNat_of_nonneg (by omega)] at hk
  rw [show y1 + 1 + (y2 - (y1 + 1)) = y2 by ring] at hk
  omega

theorem ymd_ord_f_lt (f1 f2 : Fields) (h1 : canonicalDate f1) (h2 : canonicalDate f2)
    (hlt : f1.y < f2.y ∨ (f1.y = f2.y ∧ (f1.m < f2.m ∨ (f1.m = f2.m ∧ f1.d < f2.d)))) :
    ymd_ord_f f1 < ymd_ord_f f2 := by
  obtain ⟨a1, a2, a3, a4⟩ := h1
  obtain ⟨b1, b2, b3, b4⟩ := h2
  rcases hlt with hy | ⟨hy, hm | ⟨hm, hd⟩⟩
  · have hu := ymd_ord_lt_next_year f1 ⟨a1, a2, a3, a4⟩
    have hv := ymd_ord_year_le_ord f2 ⟨b1, b2, b3, b4⟩
    have hw := ymd_ord_year_lt f1.y f2.y hy
    omega
  · unfold ymd_ord_f
    have hl1 := ymd_ord_d_decomp f1.y f1.m f1.d
    have hl2 := ymd_ord_d_decomp f2.y f2.m f2.d
    rw [← hy] at hl2 ⊢
    have hle := ymd_ord_month_le f1.y f1.m f2.m a1 hm b2
    have hbm := days_per_month_bounds f1.y f1.m a1 a2
    omega
  · unfold ymd_ord_f
    have hl1 := ymd_ord_d_decomp f1.y f1.m f1.d
    have hl2 := ymd_ord_d_decomp f2.y f2.m f2.d
    rw [← hy, ← hm] at hl2 ⊢
    omega

theorem ymd_ord_f_inj (f1 f2 : Fields) (h1 : canonicalDate f1) (h2 : canonicalDate f2)
    (heq : ymd_ord_f f1 = ymd_ord_f f2) : f1.y = f2.y ∧ f1.m = f2.m ∧ f1.d = f2.d := by
  rcases lt_trichotomy f1.y f2.y with hy | hy | hy
  · have := ymd_ord_f_lt f1 f2 h1 h2 (Or.inl hy)
    omega
  · rcases lt_trichotomy f1.m f2.m with hm | hm | hm
    · have := ymd_ord_f_lt f1 f2 h1 h2 (Or.inr ⟨hy, Or.inl hm⟩)
      omega
    · rcases lt_trichotomy f1.d f2.d with hd | hd | hd
      · have := ymd_ord_f_lt f1 f2 h1 h2 (Or.inr ⟨hy, Or.inr ⟨hm, hd⟩⟩)
        omega
      · exact ⟨hy, hm, hd⟩
      · have := ymd_ord_f_lt f2 f1 h2 h1 (Or.inr ⟨hy.symm, Or.inr ⟨hm.symm, hd⟩⟩)
        omega
    · have := ymd_ord_f_lt f2 f1 h2 h1 (Or.inr ⟨hy.symm, Or.inl hm⟩)
      omega
  · have := ymd_ord_f_lt f2 f1 h2 h1 (Or.inl hy)
    omega

theorem second_count_inj (f1 f2 : Fields) (h1 : isCanonical f1) (h2 : isCanonical f2)
    (heq : second_count f1 = second_count f2) : f1 = f2 := by
  obtain ⟨hc1, ht1⟩ := h1
  obtain ⟨hc2, ht2⟩ := h2
  have hsplit : ymd_ord_f f1 = ymd_ord_f f2 ∧ f1.hh = f2.hh ∧ f1.mm = f2.mm ∧
      f1.ss = f2.ss := by
    unfold second_count minute_count hour_count at heq
    obtain ⟨u1, u2, u3, u4, u5, u6⟩ := ht1
    obtain ⟨v1, v2, v3, v4, v5, v6⟩ := ht2
    omega
  obtain ⟨hy, hm, hd⟩ := ymd_ord_f_inj f1 f2 hc1 hc2 hsplit.1
  obtain ⟨hhh, hmm, hss⟩ := hsplit.2
  cases f1
  cases f2
  simp_all

/-! ## Per-alignment step counts -/

theorem month_norm_id (y m : Int) (h1 : 1 ≤ m) (h2 : m ≤ 12) :
    y + (m - 1) / 12 = y ∧ (m - 1) % 12 + 1 = m := by
  omega

/-- `step` on a canonical, aligned tuple stays canonical and aligned and
advances the tuple's count by exactly `n`, for every alignment. -/
theorem step_count (t : Tag) (f : Fields) (n : Int) (hc : isCanonical f)
    (ha : alignedTo t f) :
    isCanonical (step t f n) ∧ alignedTo t (step t f n) ∧
      tag_count t (step t f n) = tag_count t f + n := by
  obtain ⟨⟨hm1, hm2, hd1, hd2⟩, hh0, hh24, hmm0, hmm60, hss0, hss60⟩ := hc
  have hmn := month_norm_id f.y f.m hm1 hm2
  cases t
  · simp only [step, tag_count]
    have hs := n_sec_spec f.y f.m f.d f.hh (f.mm + n.tdiv 60) (f.ss + n.tmod 60)
    rw [hmn.1, hmn.2] at hs
    refine ⟨hs.1, trivial, ?_⟩
    rw [hs.2]
    have htd := Int.tdiv_add_tmod n 60
    unfold second_count minute_count hour_count ymd_ord_f
    omega
  · simp only [step, tag_count]
    have hs := n_min_spec f.y f.m f.d (f.hh + n.tdiv 60) 0 (f.mm + n.tmod 60) f.ss
    rw [hmn.1, hmn.2] at hs
    obtain ⟨hcd, h0, h24, hm0, hm60, hssr, hcnt⟩ := hs
    have htd := Int.tdiv_add_tmod n 60
    refine ⟨⟨hcd, h0, h24, hm0, hm60, ?_, ?_⟩, ?_, ?_⟩
    · rw [hssr, ha]
    · rw [hssr, ha]
      omega
    · show _ = (0 : Int)
      rw [hssr, ha]
    · rw [hcnt]
      unfold minute_count hour_count ymd_ord_f
      omega
  · simp only [step, tag_count]
    obtain ⟨ham, has⟩ := ha
    have hs := n_hour_spec f.y f.m (f.d + n.tdiv 24) 0 (f.hh + n.tmod 24) f.mm f.ss
    rw [hmn.1, hmn.2] at hs
    obtain ⟨hcd, h0, h24, hmmr, hssr, hcnt⟩ := hs
    have htd := Int.tdiv_add_tmod n 24
    have hlin := ymd_ord_linear_d f.y f.m f.d (n.tdiv 24)
    refine ⟨⟨hcd, h0, h24, ?_, ?_, ?_, ?_⟩, ⟨?_, ?_⟩, ?_⟩
    · rw [hmmr, ham]
    · rw [hmmr, ham]
      omega
    · rw [hssr, has]
    · rw [hssr, has]
      omega
    · rw [hmmr, ham]
    · rw [hssr, has]
    · rw [hcnt, hlin]
      unfold hour_count ymd_ord_f
      omega
  · simp only [step, tag_count]
    obtain ⟨hah, ham, has⟩ := ha
    have hs := n_day_spec f.y f.m f.d n f.hh f.mm f.ss hm1 hm2
    obtain ⟨hcd, hord, hhr, hmr, hsr⟩ := hs
    refine ⟨⟨hcd, ?_, ?_, ?_, ?_, ?_, ?_⟩, ⟨?_, ?_, ?_⟩, ?_⟩
    · rw [hhr]; omega
    · rw [hhr]; omega
    · rw [hmr]; omega
    · rw [hmr]; omega
    · rw [hsr]; omega
    · rw [hsr]; omega
    · rw [hhr, hah]
    · rw [hmr, ham]
    · rw [hsr, has]
    · rw [hord]
      rfl
  · simp only [step, tag_count]
    obtain ⟨had, hah, ham, has⟩ := ha
    have hs := n_mon_spec (f.y + n.tdiv 12) (f.m + n.tmod 12) f.d 0 f.hh f.mm f.ss
    obtain ⟨hcd, hord, hhr, hmr, hsr⟩ := hs
    have hmb := month_norm_bounds (f.m + n.tmod 12)
    have hdb := days_per_month_bounds (f.y + n.tdiv 12 + (f.m + n.tmod 12 - 1) / 12)
      ((f.m + n.tmod 12 - 1) % 12 + 1) hmb.1 hmb.2
    have htup : canonicalDate (⟨f.y + n.tdiv 12 + (f.m + n.tmod 12 - 1) / 12,
        (f.m + n.tmod 12 - 1) % 12 + 1, 1, 0, 0, 0⟩ : Fields) := by
      refine ⟨?_, ?_, ?_, ?_⟩
      · show 1 ≤ (f.m + n.tmod 12 - 1) % 12 + 1
        omega
      · show (f.m + n.tmod 12 - 1) % 12 + 1 ≤ 12
        omega
      · show (1 : Int) ≤ 1
        omega
      · show (1 : Int) ≤ days_per_month (f.y + n.tdiv 12 + (f.m + n.tmod 12 - 1) / 12)
          ((f.m + n.tmod 12 - 1) % 12 + 1)
        omega
    have hwit : ymd_ord_f (n_mon (f.y + n.tdiv 12) (f.m + n.tmod 12) f.d 0 f.hh f.mm f.ss) =
        ymd_ord_f (⟨f.y + n.tdiv 12 + (f.m + n.tmod 12 - 1) / 12,
          (f.m + n.tmod 12 - 1) % 12 + 1, 1, 0, 0, 0⟩ : Fields) := by
      show _ = ymd_ord (f.y + n.tdiv 12 + (f.m + n.tmod 12 - 1) / 12)
        ((f.m + n.tmod 12 - 1) % 12 + 1) 1
      rw [hord, had]
      omega
    obtain ⟨hry, hrm, hrd⟩ :=
      ymd_ord_f_inj _ _ hcd htup hwit
    have htd := Int.tdiv_add_tmod n 12
    refine ⟨⟨hcd, ?_, ?_, ?_, ?_, ?_, ?_⟩, ⟨?_, ?_, ?_, ?_⟩, ?_⟩
    · rw [hhr]; omega
    · rw [hhr]; omega
    · rw [hmr]; omega
    · rw [hmr]; omega
    · rw [hsr]; omega
    · rw [hsr]; omega
    · rw [hrd]
    · rw [hhr, hah]
    · rw [hmr, ham]
    · rw [hsr, has]
    · rw [hry, hrm]
      show 12 * (f.y + n.tdiv 12 + (f.m + n.tmod 12 - 1) / 12) +
        ((f.m + n.tmod 12 - 1) % 12 + 1) = 12 * f.y + f.m + n
      omega
  · obtain ⟨haym, had, hah, ham, has⟩ := ha
    have hdpm : days_per_month (f.y + n) f.m = 31 := by
      rw [haym]
      rfl
    have hdle : f.d ≤ days_per_month (f.y + n) f.m := by
      rw [hdpm]
      omega
    exact ⟨⟨⟨hm1, hm2, hd1, hdle⟩, hh0, hh24, hmm0, hmm60, hss0, hss60⟩,
      ⟨haym, had, hah, ham, has⟩, rfl⟩

/-- Two canonical tuples aligned to the same tag with equal counts are equal. -/
theorem tag_count_inj (t : Tag) (f1 f2 : Fields) (h1 : isCanonical f1) (h2 : isCanonical f2)
    (ha1 : alignedTo t f1) (ha2 : alignedTo t f2)
    (heq : tag_count t f1 = tag_count t f2) : f1 = f2 := by
  cases t
  · exact second_count_inj f1 f2 h1 h2 heq
  · apply second_count_inj f1 f2 h1 h2
    simp only [tag_count] at heq
    unfold second_count
    rw [ha1, ha2, heq]
  · apply second_count_inj f1 f2 h1 h2
    simp only [tag_count] at heq
    unfold second_count minute_count
    rw [ha1.1, ha1.2, ha2.1, ha2.2, heq]
  · apply second_count_inj f1 f2 h1 h2
    simp only [tag_count] at heq
    unfold second_count minute_count hour_count
    rw [ha1.1, ha1.2.1, ha1.2.2, ha2.1, ha2.2.1, ha2.2.2, heq]
  · simp only [tag_count] at heq
    obtain ⟨⟨a1, a2, _, _⟩, _⟩ := h1
    obtain ⟨⟨b1, b2, _, _⟩, _⟩ := h2
    obtain ⟨c1, c2, c3, c4⟩ := ha1
    obtain ⟨e1, e2, e3, e4⟩ := ha2
    have hy : f1.y = f2.y ∧ f1.m = f2.m := by omega
    cases f1
    cases f2
    simp_all
  · simp only [tag_count] at heq
    obtain ⟨c0, c1, c2, c3, c4⟩ := ha1
    obtain ⟨e0, e1, e2, e3, e4⟩ := ha2
    cases f1
    cases f2
    simp_all

/-- `impl::n_sec` is the identity on canonical tuples. -/
theorem n_sec_canonical_id (f : Fields) (h : isCanonical f) :
    n_sec f.y f.m f.d f.hh f.mm f.ss = f := by
  have hmn := month_norm_id f.y f.m h.1.1 h.1.2.1
  have hs := n_sec_spec f.y f.m f.d f.hh f.mm f.ss
  rw [hmn.1, hmn.2] at hs
  apply second_count_inj _ _ hs.1 h
  rw [hs.2]
  unfold second_count minute_count hour_count ymd_ord_f
  ring

/-- `align` preserves canonical form and establishes its tag's alignment. -/
theorem align_spec (t : Tag) (f : Fields) (h : isCanonical f) :
    isCanonical (align t f) ∧ alignedTo t (align t f) := by
  obtain ⟨⟨hm1, hm2, hd1, hd2⟩, hh0, hh24, hmm0, hmm60, hss0, hss60⟩ := h
  cases t
  · exact ⟨⟨⟨hm1, hm2, hd1, hd2⟩, hh0, hh24, hmm0, hmm60, hss0, hss60⟩, trivial⟩
  · exact ⟨⟨⟨hm1, hm2, hd1, hd2⟩, hh0, hh24, hmm0, hmm60, le_rfl,
      show (0 : Int) < 60 by norm_num⟩, rfl⟩
  · exact ⟨⟨⟨hm1, hm2, hd1, hd2⟩, hh0, hh24, le_rfl, show (0 : Int) < 60 by norm_num,
      le_rfl, show (0 : Int) < 60 by norm_num⟩, rfl, rfl⟩
  · exact ⟨⟨⟨hm1, hm2, hd1, hd2⟩, le_rfl, show (0 : Int) < 24 by norm_num, le_rfl,
      show (0 : Int) < 60 by norm_num, le_rfl, show (0 : Int) < 60 by norm_num⟩,
      rfl, rfl, rfl⟩
  · have hdb := days_per_month_bounds f.y f.m hm1 hm2
    exact ⟨⟨⟨hm1, hm2, le_rfl, show (1 : Int) ≤ days_per_month f.y f.m by omega⟩, le_rfl,
      show (0 : Int) < 24 by norm_num, le_rfl, show (0 : Int) < 60 by norm_num, le_rfl,
      show (0 : Int) < 60 by norm_num⟩, rfl, rfl, rfl, rfl⟩
  · have hdpm : days_per_month f.y 1 = 31 := rfl
    exact ⟨⟨⟨le_rfl, show (1 : Int) ≤ 12 by norm_num, le_rfl,
      show (1 : Int) ≤ days_per_month f.y 1 by rw [hdpm]; norm_num⟩, le_rfl,
      show (0 : Int) < 24 by norm_num, le_rfl, show (0 : Int) < 60 by norm_num, le_rfl,
      show (0 : Int) < 60 by norm_num⟩, rfl, rfl, rfl, rfl, rfl⟩

/-- `align` is the identity on a tuple already aligned to the tag. -/
theorem align_of_aligned (t : Tag) (f : Fields) (ha : alignedTo t f) : align t f = f := by
  cases t <;> cases f <;> simp_all [align, alignedTo]

/-! ## Comparison operators: characterization and order properties -/

theorem lt_fields_iff (f1 f2 : Fields) :
    lt_fields f1 f2 = true ↔
      (f1.y < f2.y ∨ (f1.y = f2.y ∧ (f1.m < f2.m ∨ (f1.m = f2.m ∧ (f1.d < f2.d ∨
        (f1.d = f2.d ∧ (f1.hh < f2.hh ∨ (f1.hh = f2.hh ∧ (f1.mm < f2.mm ∨
          (f1.mm = f2.mm ∧ f1.ss < f2.ss)))))))))) := by
  unfold lt_fields
  simp [Bool.or_eq_true, Bool.and_eq_true, decide_eq_true_eq, beq_iff_eq]

theorem eq_fields_iff_components (f1 f2 : Fields) :
    eq_fields f1 f2 = true ↔ (f1.y = f2.y ∧ f1.m = f2.m ∧ f1.d = f2.d ∧
      f1.hh = f2.hh ∧ f1.mm = f2.mm ∧ f1.ss = f2.ss) := by
  unfold eq_fields
  simp [Bool.and_eq_true, beq_iff_eq, and_assoc]

theorem eq_fields_iff (f1 f2 : Fields) : eq_fields f1 f2 = true ↔ f1 = f2 := by
  rw [eq_fields_iff_components]
  cases f1
  cases f2
  simp [Fields.mk.injEq]

theorem fields_trichotomy (f1 f2 : Fields) :
    (lt_fields f1 f2 = true ∧ eq_fields f1 f2 = false ∧ lt_fields f2 f1 = false) ∨
      (lt_fields f1 f2 = false ∧ eq_fields f1 f2 = true ∧ lt_fields f2 f1 = false) ∨
      (lt_fields f1 f2 = false ∧ eq_fields f1 f2 = false ∧ lt_fields f2 f1 = true) := by
  have h1 := lt_fields_iff f1 f2
  have h2 := lt_fields_iff f2 f1
  have h3 := eq_fields_iff_components f1 f2
  cases hb1 : lt_fields f1 f2 <;> cases hb2 : lt_fields f2 f1 <;>
    cases hb3 : eq_fields f1 f2 <;>
    simp only [hb1, hb2, hb3] at h1 h2 h3 <;> simp at h1 h2 h3 ⊢ <;> omega

theorem lt_fields_trans (f1 f2 f3 : Fields) (h12 : lt_fields f1 f2 = true)
    (h23 : lt_fields f2 f3 = true) : lt_fields f1 f3 = true := by
  rw [lt_fields_iff] at h12 h23 ⊢
  omega

theorem le_fields_iff (f1 f2 : Fields) :
    le_fields f1 f2 = true ↔ (lt_fields f1 f2 = true ∨ eq_fields f1 f2 = true) := by
  unfold le_fields
  have h1 := lt_fields_iff f1 f2
  have h2 := lt_fields_iff f2 f1
  have h3 := eq_fields_iff_components f1 f2
  cases hb1 : lt_fields f1 f2 <;> cases hb2 : lt_fields f2 f1 <;>
    cases hb3 : eq_fields f1 f2 <;>
    simp only [hb1, hb2, hb3] at h1 h2 h3 <;> simp at h1 h2 h3 ⊢ <;> omega

theorem ge_fields_iff (f1 f2 : Fields) :
    ge_fields f1 f2 = true ↔ (lt_fields f2 f1 = true ∨ eq_fields f1 f2 = true) := by
  unfold ge_fields
  have h1 := lt_fields_iff f1 f2
  have h2 := lt_fields_iff f2 f1
  have h3 := eq_fields_iff_components f1 f2
  cases hb1 : lt_fields f1 f2 <;> cases hb2 : lt_fields f2 f1 <;>
    cases hb3 : eq_fields f1 f2 <;>
    simp only [hb1, hb2, hb3] at h1 h2 h3 <;> simp at h1 h2 h3 ⊢ <;> omega

/-! ## The claims -/

/-- C1: construction from arbitrary integer fields, stepping, and conversion
between alignments always produce a canonical field tuple (month in
`[1, 12]`, day in `[1, days_per_month]`, hour in `[0, 24)`, minute and
second in `[0, 60)`), with every field below the value's alignment at its
minimum; and constructing a new value from the canonical fields read back
reproduces an equal value. -/
theorem claim_C1_canonical_invariant (t t2 : Tag) (y m d hh mm ss : Int) (f : Fields)
    (n : Int) (hc : isCanonical f) (ha : alignedTo t f) :
    (isCanonical (civil_time t y m d hh mm ss) ∧ alignedTo t (civil_time t y m d hh mm ss)) ∧
      civil_time t f.y f.m f.d f.hh f.mm f.ss = f ∧
      (isCanonical (step t f n) ∧ alignedTo t (step t f n)) ∧
      (isCanonical (civil_time_convert t2 f) ∧ alignedTo t2 (civil_time_convert t2 f)) := by
  have hn := n_sec_spec y m d hh mm ss
  have h1 := align_spec t (n_sec y m d hh mm ss) hn.1
  have hstep := step_count t f n hc ha
  have hconv := align_spec t2 f hc
  refine ⟨⟨h1.1, h1.2⟩, ?_, ⟨hstep.1, hstep.2.1⟩, hconv⟩
  unfold civil_time
  rw [n_sec_canonical_id f hc, align_of_aligned t f ha]

/-- Witness for C1 at a concrete leap-day value and concrete raw fields. -/
theorem claim_C1_witness :
    isCanonical (⟨2024, 2, 29, 0, 0, 0⟩ : Fields) ∧
      ((isCanonical (civil_time .day 5 90 1000 (-3) 7 100) ∧
          alignedTo .day (civil_time .day 5 90 1000 (-3) 7 100)) ∧
        civil_time .day 2024 2 29 0 0 0 = (⟨2024, 2, 29, 0, 0, 0⟩ : Fields) ∧
        (isCanonical (step .day (⟨2024, 2, 29, 0, 0, 0⟩ : Fields) (-50)) ∧
          alignedTo .day (step .day (⟨2024, 2, 29, 0, 0, 0⟩ : Fields) (-50))) ∧
        (isCanonical (civil_time_convert .month (⟨2024, 2, 29, 0, 0, 0⟩ : Fields)) ∧
          alignedTo .month (civil_time_convert .month (⟨2024, 2, 29, 0, 0, 0⟩ : Fields)))) :=
  ⟨by decide,
    claim_C1_canonical_invariant .day .month 5 90 1000 (-3) 7 100
      (⟨2024, 2, 29, 0, 0, 0⟩ : Fields) (-50) (by decide) (by decide)⟩

/-- C2: stepping forward by `n` (`operator+=`) and then backward by `n`
(`operator-=`) returns the original value, for every representable `n`,
including `n = INT_MIN`, which `operator-=` splits into a step by `-(n+1)`
followed by a step by `1`. -/
theorem claim_C2_step_roundtrip (t : Tag) (f : Fields) (n : Int) (hc : isCanonical f)
    (ha : alignedTo t f) (hn1 : -2147483648 ≤ n) (hn2 : n < 2147483648) :
    sub_assign t (add_assign t f n) n = f := by
  unfold add_assign sub_assign
  have hsn := step_count t f n hc ha
  by_cases hmin : n = int_min
  · rw [if_neg (by simp [hmin])]
    have ha2 := step_count t (step t f n) (-(n + 1)) hsn.1 hsn.2.1
    have ha3 := step_count t (step t (step t f n) (-(n + 1))) 1 ha2.1 ha2.2.1
    apply tag_count_inj t _ _ ha3.1 hc ha3.2.1 ha
    rw [ha3.2.2, ha2.2.2, hsn.2.2]
    ring
  · rw [if_pos hmin]
    have ha2 := step_count t (step t f n) (-n) hsn.1 hsn.2.1
    apply tag_count_inj t _ _ ha2.1 hc ha2.2.1 ha
    rw [ha2.2.2, hsn.2.2]
    ring

/-- Witness for C2 at the boundary value `n = INT_MIN` on a day-aligned
leap-day value. -/
theorem claim_C2_witness :
    isCanonical (⟨2024, 2, 29, 0, 0, 0⟩ : Fields) ∧
      sub_assign .day (add_assign .day (⟨2024, 2, 29, 0, 0, 0⟩ : Fields) (-2147483648))
        (-2147483648) = (⟨2024, 2, 29, 0, 0, 0⟩ : Fields) :=
  ⟨by decide,
    claim_C2_step_roundtrip .day (⟨2024, 2, 29, 0, 0, 0⟩ : Fields) (-2147483648)
      (by decide) (by decide) (by decide) (by decide)⟩

/-- C3: for every input tuple of arbitrary integers, `impl::n_sec` produces
the exact canonical tuple with no precision loss: the result is canonical,
its total second count equals the unbounded-integer total computed from the
inputs (with floored division throughout), it is the unique such canonical
tuple, and the day ordinal it rests on agrees with the closed
floored-division reference formula. -/
theorem claim_C3_normalization_exact (y m d hh mm ss : Int) :
    isCanonical (n_sec y m d hh mm ss) ∧
      second_count (n_sec y m d hh mm ss) =
        ((ymd_ord (y + (m - 1) / 12) ((m - 1) % 12 + 1) d * 24 + hh) * 60 + mm) * 60 + ss ∧
      (∀ a b c : Int, ymd_ord a b c =
        gdays (a - (if b ≤ 2 then 1 else 0)) + doy_gen b + c - 1 - 719468) ∧
      ∀ g : Fields, isCanonical g →
        second_count g =
          ((ymd_ord (y + (m - 1) / 12) ((m - 1) % 12 + 1) d * 24 + hh) * 60 + mm) * 60 + ss →
        g = n_sec y m d hh mm ss := by
  have hs := n_sec_spec y m d hh mm ss
  exact ⟨hs.1, hs.2, fun a b c => ymd_ord_decomp a b c,
    fun g hg hcnt => second_count_inj g _ hg hs.1 (by rw [hcnt, hs.2])⟩

/-- Witness for C3 at a far-out-of-range concrete input, checking the unique
canonical result explicitly. -/
theorem claim_C3_witness :
    isCanonical (n_sec 5 25 1000000 (-3) 7 (-1000000)) ∧
      (⟨2744, 11, 15, 7, 20, 20⟩ : Fields) = n_sec 5 25 1000000 (-3) 7 (-1000000) :=
  ⟨(claim_C3_normalization_exact 5 25 1000000 (-3) 7 (-1000000)).1,
    (claim_C3_normalization_exact 5 25 1000000 (-3) 7 (-1000000)).2.2.2
      (⟨2744, 11, 15, 7, 20, 20⟩ : Fields) (by decide) (by decide)⟩

/-- C4: the relational operators compare the two stored six-field tuples
lexicographically (year, month, day, hour, minute, second), ignoring
alignment; the result is a total order: exactly one of `<`, `==`, `>`
holds, `<` is transitive, and `<=`, `>=`, `>`, `!=` are consistent with `<`
and `==`. -/
theorem claim_C4_comparison_total_order :
    (∀ f1 f2 : Fields, lt_fields f1 f2 = true ↔
      (f1.y < f2.y ∨ (f1.y = f2.y ∧ (f1.m < f2.m ∨ (f1.m = f2.m ∧ (f1.d < f2.d ∨
        (f1.d = f2.d ∧ (f1.hh < f2.hh ∨ (f1.hh = f2.hh ∧ (f1.mm < f2.mm ∨
          (f1.mm = f2.mm ∧ f1.ss < f2.ss))))))))))) ∧
      (∀ f1 f2 : Fields, eq_fields f1 f2 = true ↔ f1 = f2) ∧
      (∀ f1 f2 : Fields,
        (lt_fields f1 f2 = true ∧ eq_fields f1 f2 = false ∧ lt_fields f2 f1 = false) ∨
        (lt_fields f1 f2 = false ∧ eq_fields f1 f2 = true ∧ lt_fields f2 f1 = false) ∨
        (lt_fields f1 f2 = false ∧ eq_fields f1 f2 = false ∧ lt_fields f2 f1 = true)) ∧
      (∀ f1 f2 f3 : Fields, lt_fields f1 f2 = true → lt_fields f2 f3 = true →
        lt_fields f1 f3 = true) ∧
      (∀ f1 f2 : Fields, le_fields f1 f2 = true ↔
        (lt_fields f1 f2 = true ∨ eq_fields f1 f2 = true)) ∧
      (∀ f1 f2 : Fields, ge_fields f1 f2 = true ↔
        (lt_fields f2 f1 = true ∨ eq_fields f1 f2 = true)) ∧
      (∀ f1 f2 : Fields, gt_fields f1 f2 = lt_fields f2 f1) ∧
      (∀ f1 f2 : Fields, ne_fields f1 f2 = !eq_fields f1 f2) :=
  ⟨lt_fields_iff, eq_fields_iff, fields_trichotomy, lt_fields_trans, le_fields_iff,
    ge_fields_iff, fun _ _ => rfl, fun _ _ => rfl⟩

/-- Witness for C4: transitivity applied at three concrete values of
different alignments. -/
theorem claim_C4_witness :
    lt_fields (⟨1970, 1, 1, 0, 0, 0⟩ : Fields) (⟨1970, 1, 1, 0, 0, 30⟩ : Fields) = true ∧
      lt_fields (⟨1970, 1, 1, 0, 0, 30⟩ : Fields) (⟨1971, 1, 1, 0, 0, 0⟩ : Fields) = true ∧
      lt_fields (⟨1970, 1, 1, 0, 0, 0⟩ : Fields) (⟨1971, 1, 1, 0, 0, 0⟩ : Fields) = true :=
  ⟨by decide, by decide,
    claim_C4_comparison_total_order.2.2.2.1 (⟨1970, 1, 1, 0, 0, 0⟩ : Fields)
      (⟨1970, 1, 1, 0, 0, 30⟩ : Fields) (⟨1971, 1, 1, 0, 0, 0⟩ : Fields)
      (by decide) (by decide)⟩

/-- C5: the day-aligned difference is `ymd_ord a - ymd_ord b`, where
`ymd_ord` shifts January/February into the previous civil year and combines
an era index with the day-of-era as `era * 146097 + day_of_era - 719468`;
day 0 is the epoch date 1970-01-01. -/
theorem claim_C5_day_difference :
    (∀ f1 f2 : Fields, difference .day f1 f2 =
      ymd_ord f1.y f1.m f1.d - ymd_ord f2.y f2.m f2.d) ∧
      ymd_ord 1970 1 1 = 0 :=
  ⟨fun _ _ => rfl, by decide⟩

/-- C6: stepping a value by `n` and then by `m`, in units of its own
alignment, yields the same value as stepping by `n + m` in one step. -/
theorem claim_C6_step_additive (t : Tag) (f : Fields) (n m : Int) (hc : isCanonical f)
    (ha : alignedTo t f) : step t (step t f n) m = step t f (n + m) := by
  have h1 := step_count t f n hc ha
  have h2 := step_count t (step t f n) m h1.1 h1.2.1
  have h3 := step_count t f (n + m) hc ha
  apply tag_count_inj t _ _ h2.1 h3.1 h2.2.1 h3.2.1
  rw [h2.2.2, h1.2.2, h3.2.2]
  ring

/-- Witness for C6 on a month-aligned value with steps of mixed sign. -/
theorem claim_C6_witness :
    isCanonical (⟨2015, 12, 1, 0, 0, 0⟩ : Fields) ∧
      step .month (step .month (⟨2015, 12, 1, 0, 0, 0⟩ : Fields) 25) (-13) =
        step .month (⟨2015, 12, 1, 0, 0, 0⟩ : Fields) (25 + -13) :=
  ⟨by decide,
    claim_C6_step_additive .month (⟨2015, 12, 1, 0, 0, 0⟩ : Fields) 25 (-13)
      (by decide) (by decide)⟩

/-- C7: `civil_day(2000, 2, 29)` is a valid leap day equal to
`civil_day(2000, 2, 28) + 1`, while `civil_day(1900, 2, 29)` auto-carries
forward to March 1, 1900 (1900 is not a leap year). -/
theorem claim_C7_leap_day :
    civil_time .day 2000 2 29 0 0 0 = (⟨2000, 2, 29, 0, 0, 0⟩ : Fields) ∧
      civil_time .day 2000 2 29 0 0 0 = add_op .day (civil_time .day 2000 2 28 0 0 0) 1 ∧
      civil_time .day 1900 2 29 0 0 0 = (⟨1900, 3, 1, 0, 0, 0⟩ : Fields) := by
  refine ⟨by decide, by decide, by decide⟩

/-- C8: the months-to-years stage computes `year + ⌊(month-1)/12⌋` and
`((month-1) mod 12) + 1` with floored division and non-negative remainder,
for every integer month; `civil_month(2015, 13)` normalizes to
`civil_month(2016, 1)`. -/
theorem claim_C8_month_normalization :
    (∀ y m d cd hh mm ss : Int, n_mon y m d cd hh mm ss =
      n_day (y + (m - 1) / 12) ((m - 1) % 12 + 1) d cd hh mm ss) ∧
      civil_time .month 2015 13 1 0 0 0 = civil_time .month 2016 1 1 0 0 0 := by
  refine ⟨fun y m d cd hh mm ss => n_mon_eq y m d cd hh mm ss, by decide⟩

/-- Helper for the weekday periodicity: the mod-7 table index is invariant
under adding 7 days. -/
theorem weekday_index_period (a : Int) :
    ((a + 7).tmod 7 + 7).tmod 7 = (a.tmod 7 + 7).tmod 7 := by
  have hb1 := tmod_bounds a 7 (by omega)
  have hb2 := tmod_bounds (a + 7) 7 (by omega)
  have hd1 := Int.tmod_def a 7
  have hd2 := Int.tmod_def (a + 7) 7
  rw [Int.tmod_eq_emod (show (0 : Int) ≤ (a + 7).tmod 7 + 7 by omega) (by omega),
    Int.tmod_eq_emod (show (0 : Int) ≤ a.tmod 7 + 7 by omega) (by omega)]
  omega

set_option maxRecDepth 8000 in
/-- C9: `get_weekday` of the epoch 1970-01-01 is Thursday, and the weekday
is periodic with period 7 under day stepping; the computation indexes the
fixed 7-entry table by the day ordinal modulo 7, adjusted to be
non-negative. -/
theorem claim_C9_weekday :
    get_weekday (civil_time .day 1970 1 1 0 0 0) = Weekday.thursday ∧
      ∀ f : Fields, isCanonical f → alignedTo .day f →
        get_weekday (step .day f 7) = get_weekday f := by
  refine ⟨by decide, fun f hc ha => ?_⟩
  have hs := (step_count .day f 7 hc ha).2.2
  simp only [tag_count] at hs
  unfold get_weekday
  have harg : difference .day (step .day f 7) (civil_time_default .day) =
      difference .day f (civil_time_default .day) + 7 := by
    simp only [difference, difference_day]
    unfold ymd_ord_f at hs
    omega
  rw [harg, weekday_index_period]

/-- Witness for C9: periodicity applied at a concrete leap-day value. -/
theorem claim_C9_witness :
    isCanonical (⟨2024, 2, 29, 0, 0, 0⟩ : Fields) ∧
      get_weekday (step .day (⟨2024, 2, 29, 0, 0, 0⟩ : Fields) 7) =
        get_weekday (⟨2024, 2, 29, 0, 0, 0⟩ : Fields) :=
  ⟨by decide,
    claim_C9_weekday.2 (⟨2024, 2, 29, 0, 0, 0⟩ : Fields) (by decide) (by decide)⟩

/-- C10: binary `operator-` negates `n` directly; for representable
`n ≠ INT_MIN` the result is `a + (-n)`, while for `n = INT_MIN` the
two's-complement wraparound makes `-INT_MIN == INT_MIN`, so `a - INT_MIN`
equals `a + INT_MIN` (a step backward by `2^31` units, not forward). -/
theorem claim_C10_sub_op_int_min (t : Tag) (f : Fields) (n : Int)
    (h1 : -2147483648 ≤ n) (h2 : n < 2147483648) :
    (n ≠ int_min → sub_op t f n = add_op t f (-n)) ∧
      (n = int_min → sub_op t f n = add_op t f int_min) := by
  constructor
  · intro hne
    unfold sub_op add_op
    have hw : wrap32 (-n) = -n := by
      unfold int_min at hne
      unfold wrap32
      omega
    rw [hw]
  · intro hmin
    unfold sub_op add_op
    have hw : wrap32 (-n) = int_min := by
      subst hmin
      decide
    rw [hw]

/-- Witness for C10 at `n = INT_MIN` on the epoch day. -/
theorem claim_C10_witness :
    sub_op .day (⟨1970, 1, 1, 0, 0, 0⟩ : Fields) (-2147483648) =
      add_op .day (⟨1970, 1, 1, 0, 0, 0⟩ : Fields) int_min :=
  (claim_C10_sub_op_int_min .day (⟨1970, 1, 1, 0, 0, 0⟩ : Fields) (-2147483648)
    (by decide) (by decide)).2 (by decide)

end CctzDetail
